import Mathlib

/-!
Verification development for the vertebrate library (EventEmitter / Model /
Collection).  The definitions below are a shallow embedding of the library
source: JavaScript values are modelled by `JSVal` (rationals stand in for the
exact finite doubles the code manipulates, with NaN and negative zero tracked
explicitly), objects by association lists, models and collections by explicit
records, and every emitted event is recorded in a trace.  Asynchronous network
operations are split into their synchronous phases, with the response passed
in explicitly.
-/

namespace Vertebrate

/-- JavaScript numbers, as used by the library: NaN and negative zero are
distinguished from ordinary (exact) values.  Infinities never arise in the
modelled code paths and are not represented. -/
inductive JSNum
  | nan
  | negZero
  | rat (q : ℚ)
deriving DecidableEq, Repr, Inhabited

/-- JavaScript values that appear as model attributes, identifiers and option
fields in the modelled code: undefined, numbers, strings and booleans. -/
inductive JSVal
  | undef
  | num (n : JSNum)
  | str (s : String)
  | bool (b : Bool)
deriving DecidableEq, Repr, Inhabited

/-- Strict equality on numbers: NaN is unequal to everything (itself
included) and positive and negative zero are equal. -/
def JSNum.strictEq : JSNum → JSNum → Bool
  | .nan, _ => false
  | _, .nan => false
  | .negZero, .negZero => true
  | .negZero, .rat q => q == 0
  | .rat q, .negZero => q == 0
  | .rat p, .rat q => p == q

/-- Mirror of `Object.is` on numbers: NaN equals NaN, and negative zero differs from
positive zero. -/
def JSNum.sameValue : JSNum → JSNum → Bool
  | .nan, .nan => true
  | .nan, _ => false
  | _, .nan => false
  | .negZero, .negZero => true
  | .negZero, .rat _ => false
  | .rat _, .negZero => false
  | .rat p, .rat q => p == q

/-- JavaScript `===` on the modelled values (no coercion between types). -/
def strictEq : JSVal → JSVal → Bool
  | .undef, .undef => true
  | .num a, .num b => a.strictEq b
  | .str a, .str b => a == b
  | .bool a, .bool b => a == b
  | _, _ => false

/-- JavaScript `Object.is` on the modelled values. -/
def sameValue : JSVal → JSVal → Bool
  | .undef, .undef => true
  | .num a, .num b => a.sameValue b
  | .str a, .str b => a == b
  | .bool a, .bool b => a == b
  | _, _ => false

/-- SameValueZero, the comparison used by `Array.prototype.includes`:
like `===` but NaN matches NaN. -/
def sameValueZero (a b : JSVal) : Bool :=
  strictEq a b || (a == .num .nan && b == .num .nan)

/-- JavaScript truthiness of the modelled values. -/
def truthy : JSVal → Bool
  | .undef => false
  | .num .nan => false
  | .num .negZero => false
  | .num (.rat q) => q != 0
  | .str s => s != ""
  | .bool b => b

/-- From the source `checkId`: an id must be a string, or a number that is an
integer and not negative (`id % 1 !== 0 || id < 0` rejects it).  Note that
negative zero passes both tests in JavaScript and is therefore accepted, and
NaN fails the `% 1` test. -/
def checkId : JSVal → Bool
  | .str _ => true
  | .num .negZero => true
  | .num (.rat q) => q.den == 1 && decide (0 ≤ q)
  | _ => false

/-- Exact rational subtraction, phrased through `mkRat` so that it evaluates
by kernel reduction (the `Sub ℚ` instance does not); `ratSub_eq` below shows
it agrees with ordinary subtraction. -/
def ratSub (p q : ℚ) : ℚ :=
  mkRat (p.num * q.den - q.num * p.den) (p.den * q.den)

/-- Digit list to natural number. -/
def digitsToNat (l : List Char) : Nat :=
  l.foldl (fun a c => a * 10 + (c.toNat - 48)) 0

/-- Parse an unsigned decimal numeral (digits, with an optional fractional
part), as JavaScript `ToNumber` does on the corresponding strings.  Exotic
formats (hex, exponents, `Infinity`) do not occur in the modelled scenarios
and yield `none` (NaN). -/
def parseUnsigned (l : List Char) : Option ℚ :=
  let intPart := l.takeWhile (·.isDigit)
  let rest := l.dropWhile (·.isDigit)
  match rest with
  | [] => if intPart.isEmpty then none else some (mkRat (digitsToNat intPart) 1)
  | '.' :: frac =>
      if frac.all (·.isDigit) && (!intPart.isEmpty || !frac.isEmpty) then
        some (mkRat (digitsToNat intPart * 10 ^ frac.length + digitsToNat frac) (10 ^ frac.length))
      else none
  | _ => none

/-- Strip leading and trailing whitespace from a character list (the
whitespace trimming step of string `ToNumber`). -/
def trimChars (l : List Char) : List Char :=
  ((l.dropWhile (fun c => c.isWhitespace)).reverse.dropWhile (fun c => c.isWhitespace)).reverse

/-- JavaScript `ToNumber` on a string: the empty (or all-whitespace) string
is 0, a decimal numeral with optional sign is its value, anything else NaN. -/
def strToNumber (s : String) : JSNum :=
  let t := trimChars s.data
  if t.isEmpty then .rat 0 else
  match t with
  | '-' :: rest =>
      match parseUnsigned rest with
      | some q => if q == 0 then .negZero else .rat (-q)
      | none => .nan
  | '+' :: rest =>
      match parseUnsigned rest with
      | some q => .rat q
      | none => .nan
  | l =>
      match parseUnsigned l with
      | some q => .rat q
      | none => .nan

/-- JavaScript `ToNumber` on the modelled values (as triggered by the `-`
operator in the default comparator). -/
def toNumber : JSVal → JSNum
  | .undef => .nan
  | .num n => n
  | .bool b => if b then .rat 1 else .rat 0
  | .str s => strToNumber s

/-- IEEE subtraction on the modelled numbers: NaN propagates; a zero result
is negative zero exactly when the left operand is negative zero and the right
operand is positive zero. -/
def JSNum.sub : JSNum → JSNum → JSNum
  | .nan, _ => .nan
  | _, .nan => .nan
  | .negZero, .rat q => if q == 0 then .negZero else .rat (-q)
  | .negZero, .negZero => .rat 0
  | .rat p, .negZero => .rat p
  | .rat p, .rat q => .rat (ratSub p q)

/-- JavaScript `a - b` on the modelled values: both operands are coerced with
`ToNumber`, then subtracted. -/
def jsSub (a b : JSVal) : JSNum :=
  (toNumber a).sub (toNumber b)

/-- Is a comparator result strictly negative? (NaN is not.) -/
def numNeg : JSNum → Bool
  | .rat q => decide (q < 0)
  | _ => false

/-- Is a comparator result strictly positive? (NaN is not.) -/
def numPos : JSNum → Bool
  | .rat q => decide (0 < q)
  | _ => false

/-- The rational value of a non-NaN number (negative zero reads as 0). -/
def JSNum.q : JSNum → Option ℚ
  | .nan => none
  | .negZero => some 0
  | .rat p => some p

/-! Objects.

Plain JavaScript objects are modelled as association lists in property order.
A key explicitly holding `undefined` is distinct from an absent key (as it is
for `Object.keys` and `Object.assign`); property reads conflate the two, which
`lookupAttr` reflects by defaulting to `undefined`. -/

/-- A plain object: keys with values, in property order. -/
abbrev Obj := List (String × JSVal)

/-- First binding of a key, if present. -/
def lookupOpt (o : Obj) (k : String) : Option JSVal :=
  (o.find? (fun p => p.1 == k)).map (fun p => p.2)

/-- Property read: `o[k]`, `undefined` when absent. -/
def lookupAttr (o : Obj) (k : String) : JSVal :=
  (lookupOpt o k).getD (.undef)

/-- Does the object have the key as an own property? -/
def hasKey (o : Obj) (k : String) : Bool :=
  (lookupOpt o k).isSome

/-- Mirror of `Object.keys`, in property order. -/
def keysOf (o : Obj) : List String :=
  o.map (fun p => p.1)

/-- Property write `o[k] = v`: overwrite in place, or append a new key. -/
def setKey : Obj → String → JSVal → Obj
  | [], k, v => [(k, v)]
  | (k', v') :: rest, k, v =>
      if k' == k then (k, v) :: rest else (k', v') :: setKey rest k v

/-- Mirror of `Object.assign` of `b` onto a copy of `a`: values of `b` win on key
collision, new keys of `b` are appended after the keys of `a`. -/
def objAssign (a b : Obj) : Obj :=
  a.map (fun p => (p.1, if hasKey b p.1 then lookupAttr b p.1 else p.2))
    ++ b.filter (fun p => !hasKey a p.1)

/-! Models. -/

/-- The private per-model state: live attributes (`modelsAttributes`), the
snapshot (`previousAttributes`), the owning-collection back-reference (for the
single collection under study), the inheritance chain of the model's class
(class identifiers, `0` being the base `Model` class) and the optional
`urlRoot` override (`none` means the base implementation, which throws). -/
structure ModelData where
  attrs : Obj
  prev : Obj
  coll : Bool
  chain : List Nat
  urlRootStr : Option String
deriving DecidableEq, Repr, Inhabited

/-- Events a model emits (the special listener-bookkeeping events are
filtered from generic dispatch by the emitter and never observed). -/
inductive MEvent
  | changeKey (k : String) (v : JSVal)
  | change
  | reset
  | sync
  | destroy
  | clear
deriving DecidableEq, Repr

/-- The `Model` constructor: rejects a defined but invalid `id`, stores the
attributes and snapshots a copy of them. -/
def mkModel (attributes : Obj) (chain : List Nat) : Except String ModelData :=
  if lookupAttr attributes "id" != .undef && !checkId (lookupAttr attributes "id") then
    .error "id must be a string or a positive integer"
  else
    .ok { attrs := attributes, prev := attributes, coll := false,
          chain := chain, urlRootStr := none }

/-- From the source `setAttributes`: decide whether a key is written.  A key
is skipped when the new value strictly equals (`===`) the stored one, or when
the key is `id` and the new value is not a valid identifier. -/
def checkToUpdate (attributeName : String) (newValue oldValue : JSVal) : Bool :=
  if strictEq newValue oldValue then false
  else if attributeName == "id" && !checkId newValue then false
  else true

/-- The key loop of `setAttributes`: walk the new bindings in property order,
writing each key that passes `checkToUpdate` and emitting its scoped change
event. -/
def setAttributesGo : Obj → Obj → Obj × List MEvent
  | attrs, [] => (attrs, [])
  | attrs, (k, v) :: rest =>
      if checkToUpdate k v (lookupAttr attrs k) then
        let out := setAttributesGo (setKey attrs k v) rest
        (out.1, .changeKey k v :: out.2)
      else setAttributesGo attrs rest

namespace Model

/-- Method `setAttributes` of `Model`: per-key writes and scoped events, then one
unconditional `change` event. -/
def setAttributes (m : ModelData) (newAttributes : Obj) : ModelData × List MEvent :=
  let out := setAttributesGo m.attrs newAttributes
  ({ m with attrs := out.1 }, out.2 ++ [.change])

/-- Method `isNew` of `Model`: the `id` attribute is undefined. -/
def isNew (m : ModelData) : Bool :=
  lookupAttr m.attrs "id" == (.undef)

/-- Method `hasChanged(key)` of `Model`: the live value differs from the snapshot value
under `Object.is`. -/
def hasChangedKey (m : ModelData) (k : String) : Bool :=
  !sameValue (lookupAttr m.attrs k) (lookupAttr m.prev k)

/-- Method `hasChanged()` of `Model`: some key of either mapping differs under
`Object.is`.  (The source walks a `Set` union of the key lists; deduplication
does not change whether a differing key exists, so the concatenation is
walked here.) -/
def hasChanged (m : ModelData) : Bool :=
  (keysOf m.attrs ++ keysOf m.prev).any
    (fun k => !sameValue (lookupAttr m.attrs k) (lookupAttr m.prev k))

/-- Method `reset` of `Model`: replace the snapshot with a copy of the given attributes;
the live attributes become that copy, with the existing live values laid over
it when `keepExistingAsChanges` is set.  Emits `reset`. -/
def reset (m : ModelData) (attributes : Obj) (keepExistingAsChanges : Bool) :
    ModelData × List MEvent :=
  ({ m with
      prev := attributes,
      attrs := if keepExistingAsChanges then objAssign attributes m.attrs else attributes },
   [.reset])

end Model

/-! Collections.

A collection's private state: the heap of all model objects created so far
(a model reference is an index into it, standing for JavaScript object
identity) and the ordered member list.  `modelCls` is the class identifier
bound to `collection.Model`, `newChain` the inheritance chain of that class
(used for vivified models), and `urlStr` the overridden `url()` (`none`
meaning the base implementation, which throws).

Event proxying: on every member the collection registers exactly one generic
relay (re-emitting each non-special member event on the collection with the
member prepended) and one `change` listener that re-sorts.  Registration and
membership change together on every code path, so "the member's events are
proxied" is represented by membership in `members`. -/

/-- Events observed on the collection, member events arriving through the
generic relay included. -/
inductive CEvent
  | add (m : Nat)
  | replace (old new : Nat)
  | sort
  | update
  | remove (m : Nat)
  | sync
  | member (m : Nat) (e : MEvent)
deriving DecidableEq, Repr

/-- Collection state (heap of models plus the private member array and the
specialisation data). -/
structure CollState where
  heap : List ModelData
  members : List Nat
  modelCls : Nat
  newChain : List Nat
  urlStr : Option String
deriving DecidableEq, Repr, Inhabited

/-- Dereference a model. -/
def getModel (s : CollState) (r : Nat) : ModelData :=
  s.heap.getD r default

/-- Write back a model. -/
def updModel (s : CollState) (r : Nat) (m : ModelData) : CollState :=
  { s with heap := s.heap.set r m }

/-- A member's `id` attribute. -/
def idOf (s : CollState) (r : Nat) : JSVal :=
  lookupAttr (getModel s r).attrs "id"

/-- Reading `model.isNew()` through the heap. -/
def isNewM (s : CollState) (r : Nat) : Bool :=
  idOf s r == .undef

namespace Collection

/-- The default collection comparator: `a.id - b.id` under JavaScript
arithmetic (numeric coercion of the ids). -/
def comparator (s : CollState) (a b : Nat) : JSNum :=
  jsSub (idOf s a) (idOf s b)

/-- Stable insertion of `x` (originally positioned before the list) into an
already-sorted list, per the `Array.prototype.sort` contract: an element `y`
stays in front of `x` exactly when the comparator puts `y` strictly first. -/
def insertSorted (lt : Nat → Nat → Bool) (x : Nat) : List Nat → List Nat
  | [] => [x]
  | y :: ys => if lt y x then y :: insertSorted lt x ys else x :: y :: ys

/-- Stable sort (the ES2019 `Array.prototype.sort` guarantee) realised as
insertion sort. -/
def insertionSort (lt : Nat → Nat → Bool) : List Nat → List Nat
  | [] => []
  | x :: xs => insertSorted lt x (insertionSort lt xs)

/-- The private `sort` helper: sort the member array in place with the
comparator and emit one `sort` event when some position changed occupant. -/
def sortColl (s : CollState) : CollState × List CEvent :=
  let sorted := insertionSort (fun a b => numNeg (comparator s a b)) s.members
  ({ s with members := sorted }, if sorted == s.members then [] else [.sort])

/-- Mirror of `models.splice(models.indexOf(x), 1)` with JavaScript semantics: remove
the first occurrence, and when `indexOf` misses (`-1`), `splice(-1, 1)`
removes the last element. -/
def spliceRemove (l : List Nat) (r : Nat) : List Nat :=
  match l.indexOf? r with
  | some i => l.eraseIdx i
  | none => l.dropLast

/-- Method `get` of `Collection` called with an id value: first member whose `id`
strictly equals it. -/
def getById (s : CollState) (v : JSVal) : Option Nat :=
  s.members.find? (fun r => strictEq (idOf s r) v)

/-- Method `get` of `Collection` called with a model object: the model itself when it is
a member (object identity), otherwise the first member whose `id` strictly
equals the model's. -/
def getRef (s : CollState) (r : Nat) : Option Nat :=
  if r ∈ s.members then some r else getById s (idOf s r)

/-- Method `setAttributes` invoked on a model in the context of the
collection: attribute writes as in `setAttributesGo`; when the model is a
registered member its scoped events and the trailing `change` arrive on the
collection through the generic relay, and the `change` listener re-sorts. -/
def modelSetAttributes (s : CollState) (r : Nat) (newAttrs : Obj) :
    CollState × List CEvent :=
  let m := getModel s r
  let out := setAttributesGo m.attrs newAttrs
  let s1 := updModel s r { m with attrs := out.1 }
  if r ∈ s.members then
    let sortOut := sortColl s1
    (sortOut.1,
      out.2.map (fun e => CEvent.member r e) ++ [CEvent.member r MEvent.change] ++ sortOut.2)
  else (s1, [])

/-- The `addNew` / `addUnrepresented` path (textually identical in the
source): set the back-reference, append, register listeners, re-sort, emit
`add`. -/
def addModelPath (s : CollState) (r : Nat) : CollState × List CEvent :=
  let m := getModel s r
  let s1 := updModel s r { m with coll := true }
  let s2 := { s1 with members := s1.members ++ [r] }
  let sortOut := sortColl s2
  (sortOut.1, sortOut.2 ++ [CEvent.add r])

/-- Private helper `replaceModel`: splice out the member sharing the id, append the new
model, swap the listener registrations and the back-references, re-sort and
emit `replace` with the old and new models. -/
def replaceModel (s : CollState) (r : Nat) : CollState × List CEvent :=
  match getById s (idOf s r) with
  | some old =>
      let members1 := spliceRemove s.members old
      let s1 := updModel s r { getModel s r with coll := true }
      let s2 := { s1 with members := members1 ++ [r] }
      let s3 := updModel s2 old { getModel s2 old with coll := false }
      let sortOut := sortColl s3
      (sortOut.1, sortOut.2 ++ [CEvent.replace old r])
  | none => (s, [])
  -- the `none` branch is unreachable from `add`: `dispatchAdd` enters
  -- `handleDuplicate` only when a member shares the id

/-- Private helper `mergeNewIntoOld`: write the incoming model's attributes onto the
existing member through its own setter; the incoming model never joins. -/
def mergeNewIntoOld (s : CollState) (r : Nat) : CollState × List CEvent :=
  match getById s (idOf s r) with
  | some old => modelSetAttributes s old (getModel s r).attrs
  | none => (s, [])

/-- Private helper `mergeOldIntoNew`: set the existing member's attributes on the incoming
model, splice the member out, append the incoming model, swap registrations
and back-references, re-sort and emit `replace`. -/
def mergeOldIntoNew (s : CollState) (r : Nat) : CollState × List CEvent :=
  match getById s (idOf s r) with
  | some old =>
      let s1 := updModel s r { getModel s r with coll := true }
      let setOut := modelSetAttributes s1 r (getModel s1 old).attrs
      let s2 := setOut.1
      let s3 := { s2 with members := spliceRemove s2.members old ++ [r] }
      let s4 := updModel s3 old { getModel s3 old with coll := false }
      let sortOut := sortColl s4
      (sortOut.1, setOut.2 ++ sortOut.2 ++ [CEvent.replace old r])
  | none => (s, [])

/-- Private helper `handleDuplicate`: dispatch on the strategy name; an unrecognised
strategy (the default `ignore` included) does nothing. -/
def handleDuplicate (s : CollState) (r : Nat) (strategy : String) :
    CollState × List CEvent :=
  if strategy == "replace" then replaceModel s r
  else if strategy == "mergeNewIntoOld" then mergeNewIntoOld s r
  else if strategy == "mergeOldIntoNew" then mergeOldIntoNew s r
  else (s, [])

/-- The per-item dispatch of `add`: a new model is appended unconditionally;
a represented id goes to the duplicate strategy; an unrepresented id is
appended. -/
def dispatchAdd (s : CollState) (r : Nat) (strategy : String) :
    CollState × List CEvent :=
  if isNewM s r then addModelPath s r
  else if s.members.any (fun cm => strictEq (idOf s cm) (idOf s r)) then
    handleDuplicate s r strategy
  else addModelPath s r

/-- An argument to `add` after `[].concat`: a plain object to vivify, an
existing model instance, or a non-object primitive. -/
inductive AddItem
  | plain (attributes : Obj)
  | modelRef (r : Nat)
  | nonObject (v : JSVal)
deriving DecidableEq, Repr

/-- The up-front compatibility test of `add`: an item is rejected when it is
not an object, or is a `Model` instance that is not an instance of
`collection.Model`. -/
def badAddItem (s : CollState) : AddItem → Bool
  | .nonObject _ => true
  | .modelRef r =>
      (getModel s r).chain.contains 0 && !(getModel s r).chain.contains s.modelCls
  | .plain _ => false

/-- Vivification inside the `add` loop: a model instance is used as is, a
plain object is passed to `new this.Model(...)` (which validates the id).
After the up-front check the remaining cases cannot occur. -/
def vivify (s : CollState) : AddItem → Except String (CollState × Nat)
  | .modelRef r =>
      if (getModel s r).chain.contains s.modelCls then .ok (s, r)
      else .error "Models added must be non-model objects or instances of collection.Model"
  | .plain attributes =>
      match mkModel attributes s.newChain with
      | .ok m => .ok ({ s with heap := s.heap ++ [m] }, s.heap.length)
      | .error e => .error e
  | .nonObject _ =>
      .error "Models added must be non-model objects or instances of collection.Model"

/-- Result of `add`: final state, the events emitted, and the error that
aborted the loop, if any (the thrown exception propagates; effects already
applied stay). -/
structure AddOut where
  state : CollState
  trace : List CEvent
  err : Option String
deriving DecidableEq, Repr

/-- The item loop of `add`. -/
def addGo (s : CollState) (items : List AddItem) (strategy : String) : AddOut :=
  match items with
  | [] => { state := s, trace := [], err := none }
  | item :: rest =>
      match vivify s item with
      | .error e => { state := s, trace := [], err := some e }
      | .ok (s1, r) =>
          let out := dispatchAdd s1 r strategy
          let restOut := addGo out.1 rest strategy
          { state := restOut.state, trace := out.2 ++ restOut.trace, err := restOut.err }

/-- Method `add` of `Collection`: reject the whole call when any item fails the
compatibility test, otherwise process the items in order and emit one
trailing `update` event. -/
def add (s : CollState) (items : List AddItem) (strategy : String) : AddOut :=
  if items.any (fun it => badAddItem s it) then
    { state := s, trace := [],
      err := some "Models added must be non-model objects or instances of collection.Model" }
  else
    let out := addGo s items strategy
    match out.err with
    | some _ => out
    | none => { out with trace := out.trace ++ [CEvent.update] }

/-- The removal loop of the collection remove method: splice each resolved member out
and emit `remove` for it.  (Listeners are unregistered; the back-reference is
not cleared here.) -/
def removeLoop (s : CollState) : List Nat → CollState × List CEvent
  | [] => (s, [])
  | r :: rest =>
      let s1 := { s with members := spliceRemove s.members r }
      let out := removeLoop s1 rest
      (out.1, CEvent.remove r :: out.2)

/-- Method `remove` of `Collection`: resolve each argument with `get`, drop the
unresolvable ones, splice the rest out with a `remove` event each, then emit
one `update`; returns the members removed. -/
def removeColl (s : CollState) (xs : List Nat) : CollState × List CEvent × List Nat :=
  let toRemove := (xs.map (fun r => getRef s r)).reduceOption
  let out := removeLoop s toRemove
  (out.1, out.2 ++ [CEvent.update], toRemove)

/-- Method `models` of `Collection`: a copy of the member array (reference-identical in
this pure model). -/
def models (s : CollState) : List Nat :=
  s.members

/-- Mirror of `Array.prototype.includes` (SameValueZero comparison). -/
def jsIncludes (l : List JSVal) (v : JSVal) : Bool :=
  l.any (fun x => sameValueZero x v)

/-- The response handed to the collection fetch after the network call: the
success flag and status checked by `checkResponse`, and the parsed JSON body
(`none` modelling a body that is not an array, which `parse` rejects). -/
structure CResponse where
  ok : Bool
  status : Nat
  body : Option (List Obj)
deriving DecidableEq, Repr

/-- Result of the collection fetch: final state, events emitted on the
collection, and the rejection, if any, of the returned promise (effects
already applied stay). -/
structure FetchOut where
  state : CollState
  trace : List CEvent
  err : Option String
deriving DecidableEq, Repr

/-- The update loop of the collection fetch: each payload item whose id was
already represented resets the matching member (found by id), whose `reset`
event is proxied. -/
def resetLoop (s : CollState) (data : List Obj) (mergeOpt : Bool) :
    CollState × List CEvent × Option String :=
  match data with
  | [] => (s, [], none)
  | datum :: rest =>
      match getById s (lookupAttr datum "id") with
      | none => (s, [], some "TypeError")
      | some r =>
          let out := Model.reset (getModel s r) datum mergeOpt
          let s1 := updModel s r out.1
          let restOut := resetLoop s1 rest mergeOpt
          (restOut.1, out.2.map (fun e => CEvent.member r e) ++ restOut.2.1, restOut.2.2)

/-- Method `fetch` of `Collection`: check the response, reject a non-array body, then
partition the payload — members whose id is absent from the payload are
removed (when `remove`), payload items with unrepresented ids are added (when
`add`), payload items with represented ids reset the matching member (local
overrides kept when `merge`) — and emit one `sync`. -/
def fetchColl (s : CollState) (addOpt removeOpt mergeOpt : Bool) (resp : CResponse) :
    FetchOut :=
  match s.urlStr with
  | none => { state := s, trace := [], err := some "Subclass collection to set the URL field." }
  | some _ =>
  if !resp.ok then
    { state := s, trace := [], err := some "Unexpected response code from server" }
  else
    match resp.body with
    | none => { state := s, trace := [], err := some "Parsed server response body was not an array." }
    | some data =>
        let currentIds := (s.members.filter (fun r => !isNewM s r)).map (fun r => idOf s r)
        let updatedModelAttributes :=
          data.filter (fun datum => jsIncludes currentIds (lookupAttr datum "id"))
        let removeOut :=
          if removeOpt then
            let newIds := data.map (fun datum => lookupAttr datum "id")
            let removedModels := s.members.filter (fun r => !jsIncludes newIds (idOf s r))
            let out := removeColl s removedModels
            (out.1, out.2.1)
          else (s, [])
        let addOut :=
          if addOpt then
            let newModelAttributes :=
              data.filter (fun datum => !jsIncludes currentIds (lookupAttr datum "id"))
            let out := add removeOut.1 (newModelAttributes.map AddItem.plain) "ignore"
            (out.state, out.trace, out.err)
          else (removeOut.1, [], none)
        match addOut.2.2 with
        | some e => { state := addOut.1, trace := removeOut.2 ++ addOut.2.1, err := some e }
        | none =>
            let resetOut := resetLoop addOut.1 updatedModelAttributes mergeOpt
            match resetOut.2.2 with
            | some e =>
                { state := resetOut.1,
                  trace := removeOut.2 ++ addOut.2.1 ++ resetOut.2.1, err := some e }
            | none =>
                { state := resetOut.1,
                  trace := removeOut.2 ++ addOut.2.1 ++ resetOut.2.1 ++ [CEvent.sync],
                  err := none }

end Collection

namespace Model

/-- The response handed to the model fetch after the network call: success
flag, status and the parsed JSON body (an object). -/
structure MResponse where
  ok : Bool
  status : Nat
  body : Obj
deriving DecidableEq, Repr

/-- Method `fetch` of `Model`: resolve the url (throws for a new model or without a url
source), check the response, reject a payload whose `id` differs (`!==`) from
the model's, then `reset(data, options)` — the options object defaults to
one with `keepExistingAsChanges: true` when the call omits it — and emit
`sync` unconditionally.  `collUrl` is the owning collection's `url()` result
when the back-reference is set. -/
def fetchModel (m : ModelData) (options : Option Obj) (collUrl : Option String)
    (resp : MResponse) : Except String (ModelData × List MEvent) :=
  let opts := options.getD [("keepExistingAsChanges", .bool true)]
  if lookupAttr m.attrs "id" == .undef then
    .error "New Models do not have IDs."
  else
    match (if m.coll then collUrl else m.urlRootStr) with
    | none => .error "To use a model outside of a collection, a urlRoot method must be defined."
    | some _ =>
        if !resp.ok then .error "Unexpected response code from server"
        else if !strictEq (lookupAttr resp.body "id") (lookupAttr m.attrs "id") then
          .error "Server ID mismatch."
        else
          let keep := truthy (lookupAttr opts "keepExistingAsChanges")
          let out := reset m resp.body keep
          .ok (out.1, out.2 ++ [.sync])

/-- Result of a `destroy` phase: state, collection events, model events, the
number of `collection.remove` invocations made, and the error, if any. -/
structure DestroyOut where
  state : CollState
  trace : List CEvent
  mtrace : List MEvent
  removeCalls : Nat
  err : Option String
deriving DecidableEq, Repr

/-- The `collectionRemove` closure inside `destroy`: when the back-reference
is set, call `collection.remove(this)` and clear the back-reference. -/
def collectionRemove (s : CollState) (r : Nat) : CollState × List CEvent × Nat :=
  if (getModel s r).coll then
    let out := Collection.removeColl s [r]
    (updModel out.1 r { getModel out.1 r with coll := false }, out.2.1, 1)
  else (s, [], 0)

/-- The synchronous phase of the model destroy method: a new model clears its
snapshot, detaches and emits `destroy` immediately; a persisted model
resolves its url (which can throw) and, when `wait` is not set, detaches
before the network call is issued. -/
def destroyStart (s : CollState) (r : Nat) (wait : Bool) : DestroyOut :=
  if isNewM s r then
    let s1 := updModel s r { getModel s r with prev := [] }
    let out := collectionRemove s1 r
    let proxied := if r ∈ out.1.members then [CEvent.member r MEvent.destroy] else []
    { state := out.1, trace := out.2.1 ++ proxied, mtrace := [.destroy],
      removeCalls := out.2.2, err := none }
  else
    match (if (getModel s r).coll then s.urlStr else (getModel s r).urlRootStr) with
    | none =>
        { state := s, trace := [], mtrace := [], removeCalls := 0,
          err := some "Subclass collection to set the URL field." }
    | some _ =>
        if wait then
          { state := s, trace := [], mtrace := [], removeCalls := 0, err := none }
        else
          let out := collectionRemove s r
          { state := out.1, trace := out.2.1, mtrace := [], removeCalls := out.2.2,
            err := none }

/-- The response phase of the model destroy method for a persisted model: on a failed
response the promise rejects with no further effects; on success the snapshot
is cleared, the detach runs now when `wait` was set, and `destroy` is
emitted. -/
def destroyResolve (s : CollState) (r : Nat) (wait : Bool) (respOk : Bool) : DestroyOut :=
  if !respOk then
    { state := s, trace := [], mtrace := [], removeCalls := 0,
      err := some "Unexpected response code from server" }
  else
    let s1 := updModel s r { getModel s r with prev := [] }
    let out := if wait then collectionRemove s1 r else (s1, [], 0)
    let proxied := if r ∈ out.1.members then [CEvent.member r MEvent.destroy] else []
    { state := out.1, trace := out.2.1 ++ proxied, mtrace := [.destroy],
      removeCalls := out.2.2, err := none }

end Model

/-! Derived observations used by the statements below. -/

/-- Is a collection event an `add` event? -/
def isAddEv : CEvent → Bool
  | .add _ => true
  | _ => false

/-- Is a collection event a `replace` event? -/
def isReplaceEv : CEvent → Bool
  | .replace _ _ => true
  | _ => false

/-- Is a collection event a `remove` event? -/
def isRemoveEv : CEvent → Bool
  | .remove _ => true
  | _ => false

/-- The numeric key a member's id coerces to (none when the coercion is
NaN). -/
def idKey (s : CollState) (r : Nat) : Option ℚ :=
  (toNumber (idOf s r)).q

/-- Every member's id coerces to an actual number. -/
def memberIdsNumeric (s : CollState) : Prop :=
  ∀ r ∈ s.members, (idKey s r).isSome

/-- Ascending order of the numeric id keys. -/
def keyLe (s : CollState) (a b : Nat) : Prop :=
  (idKey s a).getD 0 ≤ (idKey s b).getD 0

/-- The member sequence is sorted ascending by numeric id. -/
def sortedByIds (s : CollState) : Prop :=
  List.Sorted (keyLe s) s.members

/-- Well-formed references: every member points into the heap. -/
def wfRefs (s : CollState) : Prop :=
  ∀ r ∈ s.members, r < s.heap.length

/-! Concrete states used by the worked examples and witnesses. -/

/-- An empty collection over the base model class. -/
def emptyColl : CollState :=
  { heap := [], members := [], modelCls := 0, newChain := [0], urlStr := some "/things" }

/-- Extract the model from a successful constructor call. -/
def exceptModel (e : Except String ModelData) : ModelData :=
  e.toOption.getD default

/-- Shorthand for an integer-valued number. -/
def jn (n : ℚ) : JSVal :=
  .num (.rat n)

/-- First step of the replace scenario: two plain records into the empty
collection. -/
def c2Step1 : Collection.AddOut :=
  Collection.add emptyColl [.plain [("id", jn 10)], .plain [("id", jn 20)]] "ignore"

/-- The state after the first step, with two freshly constructed replacement
entities (same ids, new payloads) appended to the heap as objects 2 and 3. -/
def c2Mid : CollState :=
  { c2Step1.state with
      heap := c2Step1.state.heap ++
        [exceptModel (mkModel [("id", jn 10), ("x", .str "new")] [0]),
         exceptModel (mkModel [("id", jn 20), ("x", .str "new")] [0])] }

/-- Second step: add the two replacement entities under the replace
strategy. -/
def c2Step2 : Collection.AddOut :=
  Collection.add c2Mid [.modelRef 2, .modelRef 3] "replace"

/-- A collection holding one new (identifier-less) member. -/
def c3State : CollState :=
  { heap := [{ attrs := [], prev := [], coll := true, chain := [0], urlRootStr := none }],
    members := [0], modelCls := 0, newChain := [0], urlStr := some "/things" }

/-- The collection fetch of the new-member collection against an empty
payload, with the default options. -/
def c3Out : Collection.FetchOut :=
  Collection.fetchColl c3State true true true { ok := true, status := 200, body := some [] }

/-- A collection whose two members carry the string ids "10" and "9". -/
def c4State : CollState :=
  { heap := [{ attrs := [("id", .str "10")], prev := [("id", .str "10")], coll := true,
               chain := [0], urlRootStr := none },
             { attrs := [("id", .str "9")], prev := [("id", .str "9")], coll := true,
               chain := [0], urlRootStr := none }],
    members := [0, 1], modelCls := 0, newChain := [0], urlStr := none }

/-- A model whose attribute `x` is NaN. -/
def c5Model : ModelData :=
  { attrs := [("x", .num .nan)], prev := [("x", .num .nan)], coll := false,
    chain := [0], urlRootStr := none }

/-- A blank model (no attributes). -/
def c6Blank : ModelData :=
  { attrs := [], prev := [], coll := false, chain := [0], urlRootStr := none }

/-- The blank model after setting `id` to 5 and then setting it back to its
original value (undefined). -/
def c6After : ModelData :=
  (Model.setAttributes (Model.setAttributes c6Blank [("id", jn 5)]).1 [("id", .undef)]).1

/-- A standalone persisted model with a local attribute value. -/
def c7Model : ModelData :=
  { attrs := [("id", jn 1), ("a", jn 2)], prev := [("id", jn 1), ("a", jn 2)],
    coll := false, chain := [0], urlRootStr := some "/things" }

/-- A successful response whose payload shares the id but changes `a`. -/
def c7Resp : Model.MResponse :=
  { ok := true, status := 200, body := [("id", jn 1), ("a", jn 99)] }

/-- The model fetch with a `silent` option passed. -/
def c7Out : ModelData × List MEvent :=
  (Model.fetchModel c7Model (some [("silent", .bool true)]) none c7Resp).toOption.getD default

/-- A collection with one persisted member, used by the destroy scenario. -/
def c8State : CollState :=
  { heap := [{ attrs := [("id", jn 10)], prev := [("id", jn 10)], coll := true,
               chain := [0], urlRootStr := none }],
    members := [0], modelCls := 0, newChain := [0], urlStr := some "/things" }

/-- A collection with one member (id 10) plus a detached model sharing the id
but carrying different attributes, used by the merge scenario. -/
def c9State : CollState :=
  { heap := [{ attrs := [("id", jn 10), ("a", .str "old"), ("b", .str "oldonly")],
               prev := [], coll := true, chain := [0], urlRootStr := none },
             { attrs := [("id", jn 10), ("a", .str "new"), ("c", .str "newonly")],
               prev := [], coll := false, chain := [0], urlRootStr := none }],
    members := [0], modelCls := 0, newChain := [0], urlStr := none }

/-- The incoming model as left by the mergeOldIntoNew path: back-reference
set, the existing member's attributes written over its own by the setter. -/
def mergedNewModel (s : CollState) (r old : Nat) : ModelData :=
  { getModel s r with
      coll := true,
      attrs := (setAttributesGo (getModel s r).attrs (getModel s old).attrs).1 }

/-- The collection state reached by the mergeOldIntoNew path just before the
final re-sort: the incoming model updated, the old member spliced out with
the incoming model appended, and the old member's back-reference cleared. -/
def mergeState (s : CollState) (r old : Nat) : CollState :=
  updModel
    { updModel (updModel s r { getModel s r with coll := true }) r
        (mergedNewModel s r old) with
        members := Collection.spliceRemove s.members old ++ [r] }
    old { getModel s old with coll := false }

/-- A collection of two members whose numeric ids 10 and 9 arrive out of
order, exercising the numeric (not lexical) comparator. -/
def c4SortState : CollState :=
  { heap := [{ attrs := [("id", jn 10)], prev := [("id", jn 10)], coll := true,
               chain := [0], urlRootStr := none },
             { attrs := [("id", jn 9)], prev := [("id", jn 9)], coll := true,
               chain := [0], urlRootStr := none }],
    members := [0, 1], modelCls := 0, newChain := [0], urlStr := none }

/-- The same collection after the private sort. -/
def c4Sorted : CollState :=
  (Collection.sortColl c4SortState).1

/-- Two plain records with descending numeric ids, to be added in order. -/
def c4Items : List Collection.AddItem :=
  [.plain [("id", jn 2)], .plain [("id", jn 1)]]

/-! Theorems. -/

/-- C2: adding two records with ids 10 and 20 to an empty set and then adding
two new entities with the same ids under the replace strategy emits exactly
two replace events carrying the (old, new) pairs, zero add events in the
second call, and leaves the member sequence as exactly the two new instances
in ascending-id order. -/
theorem claim2_replace_scenario :
    c2Step1.err = none ∧ c2Step2.err = none ∧
    c2Step2.trace.filter isReplaceEv = [CEvent.replace 0 2, CEvent.replace 1 3] ∧
    c2Step2.trace.filter isAddEv = [] ∧
    Collection.models c2Step2.state = [2, 3] ∧
    idOf c2Step2.state 2 = jn 10 ∧ idOf c2Step2.state 3 = jn 20 ∧ (10 : ℚ) < 20 := by
  decide

/-- C3, counterexample: a collection holding one new (identifier-less)
member, fetched with the default options against an empty payload, removes
that member — the claim states a member without a defined id is never removed
by fetch. -/
theorem claim3_counterexample :
    isNewM c3State 0 = true ∧
    c3Out.trace.filter isRemoveEv = [CEvent.remove 0] ∧
    c3Out.state.members = [] := by
  decide

/-- C4, counterexample: with the string ids "10" and "9", "10" precedes "9"
lexically, yet the default comparator applied to the two members yields a
strictly positive result (numeric coercion), not the negative result a
lexical ascending compare requires. -/
theorem claim4_counterexample :
    "10".data < "9".data ∧
    numNeg (Collection.comparator c4State 0 1) = false ∧
    numPos (Collection.comparator c4State 0 1) = true := by
  decide

/-- C5, counterexample: re-setting an attribute that holds NaN to NaN is an
identical write under same-value semantics, yet the setter does not skip it —
the scoped change event is emitted. -/
theorem claim5_counterexample :
    sameValue (lookupAttr c5Model.attrs "x") (.num .nan) = true ∧
    MEvent.changeKey "x" (.num .nan) ∈ (Model.setAttributes c5Model [("x", .num .nan)]).2 := by
  decide

/-- C6, counterexample: starting from a model without an id (so the original
value of the key `id` is undefined and the key is unchanged), setting `id` to
5 and then setting it back to its original value does not restore
`hasChanged("id")` to false — the write of undefined is silently rejected by
the id validity test. -/
theorem claim6_counterexample :
    lookupAttr c6Blank.attrs "id" = .undef ∧
    Model.hasChangedKey c6Blank "id" = false ∧
    Model.hasChangedKey c6After "id" = true := by
  decide

/-- C7, counterexample: a successful model fetch called with a `silent`
option still emits `sync`, and — because any explicitly passed options object
without `keepExistingAsChanges` disables the merge — the pre-fetch live value
of `a` is overwritten by the payload instead of taking precedence. -/
theorem claim7_counterexample :
    (Model.fetchModel c7Model (some [("silent", .bool true)]) none c7Resp).isOk = true ∧
    MEvent.sync ∈ c7Out.2 ∧
    lookupAttr c7Model.attrs "a" = jn 2 ∧
    lookupAttr c7Out.1.attrs "a" = jn 99 := by
  decide

/-- C10: an add call containing any non-object item, or any model instance
incompatible with the collection's configured class, throws up front: the
error is reported, the state (member sequence included) is untouched and no
event whatsoever is emitted. -/
theorem claim10_add_atomic_rejection (s : CollState) (items : List Collection.AddItem)
    (strategy : String)
    (hbad : items.any (fun it => Collection.badAddItem s it) = true) :
    (Collection.add s items strategy).err =
      some "Models added must be non-model objects or instances of collection.Model" ∧
    (Collection.add s items strategy).state = s ∧
    (Collection.add s items strategy).trace = [] := by
  simp [Collection.add, hbad]

/-- Witness for C10: a list whose first item is a perfectly addable record
and whose second item is a number; nothing is added and no event fires. -/
theorem claim10_witness :
    ([Collection.AddItem.plain [("id", jn 20)],
      Collection.AddItem.nonObject (jn 3)].any
        (fun it => Collection.badAddItem c9State it) = true) ∧
    ((Collection.add c9State
        [Collection.AddItem.plain [("id", jn 20)], Collection.AddItem.nonObject (jn 3)]
        "ignore").err =
      some "Models added must be non-model objects or instances of collection.Model" ∧
     (Collection.add c9State
        [Collection.AddItem.plain [("id", jn 20)], Collection.AddItem.nonObject (jn 3)]
        "ignore").state = c9State ∧
     (Collection.add c9State
        [Collection.AddItem.plain [("id", jn 20)], Collection.AddItem.nonObject (jn 3)]
        "ignore").trace = []) :=
  ⟨by decide, claim10_add_atomic_rejection c9State _ "ignore" (by decide)⟩

/-! Helper lemmas about heap access. -/

lemma getModel_updModel_self (s : CollState) (r : Nat) (m : ModelData)
    (h : r < s.heap.length) : getModel (updModel s r m) r = m := by
  unfold getModel updModel
  rw [List.getD_eq_getElem?_getD, List.getElem?_set_self h]
  rfl

lemma getModel_updModel_ne (s : CollState) (r r' : Nat) (m : ModelData)
    (h : r' ≠ r) : getModel (updModel s r m) r' = getModel s r' := by
  unfold getModel updModel
  rw [List.getD_eq_getElem?_getD, List.getElem?_set_ne (fun e => h e.symm),
    List.getD_eq_getElem?_getD]

lemma lt_length_of_coll (s : CollState) (r : Nat)
    (h : (getModel s r).coll = true) : r < s.heap.length := by
  by_contra hn
  push_neg at hn
  have hd : getModel s r = default := by
    unfold getModel
    rw [List.getD_eq_getElem?_getD, List.getElem?_eq_none hn]
    rfl
  rw [hd] at h
  exact Bool.noConfusion h

lemma removeLoop_heap (s : CollState) (l : List Nat) :
    (Collection.removeLoop s l).1.heap = s.heap := by
  induction l generalizing s with
  | nil => rfl
  | cons r rest ih => simpa [Collection.removeLoop] using ih _

lemma removeColl_heap (s : CollState) (xs : List Nat) :
    (Collection.removeColl s xs).1.heap = s.heap :=
  removeLoop_heap _ _

lemma removeColl_modelCls (s : CollState) (xs : List Nat) :
    (Collection.removeColl s xs).1.modelCls = s.modelCls := by
  have : ∀ l t, (Collection.removeLoop t l).1.modelCls = t.modelCls := by
    intro l
    induction l with
    | nil => intro t; rfl
    | cons r rest ih => intro t; simpa [Collection.removeLoop] using ih _
  exact this _ _

/-- C8: for a persisted model owned by a collection (with a configured url),
destroying with wait set makes no `collection.remove` call in the synchronous
phase and exactly one on a successful response, while destroying without wait
makes exactly one call synchronously and none on the response. -/
theorem claim8_destroy_wait (s : CollState) (r : Nat) (wait : Bool) (u : String)
    (hper : isNewM s r = false) (hcoll : (getModel s r).coll = true)
    (hurl : s.urlStr = some u) :
    (Model.destroyStart s r wait).removeCalls = (if wait then 0 else 1) ∧
    (Model.destroyStart s r wait).err = none ∧
    (Model.destroyResolve (Model.destroyStart s r wait).state r wait true).removeCalls =
      (if wait then 1 else 0) ∧
    (Model.destroyResolve (Model.destroyStart s r wait).state r wait true).err = none := by
  have hlt : r < s.heap.length := lt_length_of_coll s r hcoll
  cases wait with
  | false =>
      simp [Model.destroyStart, Model.destroyResolve, Model.collectionRemove, hper, hcoll, hurl]
  | true =>
      have hs : (Model.destroyStart s r true).state = s := by
        simp [Model.destroyStart, hper, hcoll, hurl]
      refine ⟨by simp [Model.destroyStart, hper, hcoll, hurl],
        by simp [Model.destroyStart, hper, hcoll, hurl], ?_, ?_⟩ <;>
        rw [hs] <;>
        simp [Model.destroyResolve, Model.collectionRemove,
          getModel_updModel_self s r _ hlt, hcoll]

/-- Witness for C8: the one-member collection, at both values of wait. -/
theorem claim8_witness :
    (isNewM c8State 0 = false ∧ (getModel c8State 0).coll = true ∧
      c8State.urlStr = some "/things") ∧
    ((Model.destroyStart c8State 0 true).removeCalls = (if true then 0 else 1) ∧
     (Model.destroyStart c8State 0 true).err = none ∧
     (Model.destroyResolve (Model.destroyStart c8State 0 true).state 0 true true).removeCalls =
       (if true then 1 else 0) ∧
     (Model.destroyResolve (Model.destroyStart c8State 0 true).state 0 true true).err = none) ∧
    ((Model.destroyStart c8State 0 false).removeCalls = (if false then 0 else 1) ∧
     (Model.destroyStart c8State 0 false).err = none ∧
     (Model.destroyResolve (Model.destroyStart c8State 0 false).state 0 false true).removeCalls =
       (if false then 1 else 0) ∧
     (Model.destroyResolve (Model.destroyStart c8State 0 false).state 0 false true).err = none) :=
  ⟨by decide,
   claim8_destroy_wait c8State 0 true "/things" (by decide) (by decide) (by decide),
   claim8_destroy_wait c8State 0 false "/things" (by decide) (by decide) (by decide)⟩

/-! Helper lemmas: the per-item processing of `add` never emits `update`. -/

lemma update_not_mem_sortColl (s : CollState) :
    CEvent.update ∉ (Collection.sortColl s).2 := by
  simp only [Collection.sortColl]
  split <;> simp

lemma update_not_mem_modelSetAttributes (s : CollState) (r : Nat) (na : Obj) :
    CEvent.update ∉ (Collection.modelSetAttributes s r na).2 := by
  unfold Collection.modelSetAttributes
  split
  · intro h
    rcases List.mem_append.mp h with h1 | h1
    · rcases List.mem_append.mp h1 with h2 | h2
      · rcases List.mem_map.mp h2 with ⟨e, _, he⟩
        exact CEvent.noConfusion he
      · simp at h2
    · exact update_not_mem_sortColl _ h1
  · simp

lemma update_not_mem_addModelPath (s : CollState) (r : Nat) :
    CEvent.update ∉ (Collection.addModelPath s r).2 := by
  intro h
  rcases List.mem_append.mp h with h1 | h1
  · exact update_not_mem_sortColl _ h1
  · simp at h1

lemma update_not_mem_replaceModel (s : CollState) (r : Nat) :
    CEvent.update ∉ (Collection.replaceModel s r).2 := by
  unfold Collection.replaceModel
  split
  · intro h
    rcases List.mem_append.mp h with h1 | h1
    · exact update_not_mem_sortColl _ h1
    · simp at h1
  · simp

lemma update_not_mem_mergeNewIntoOld (s : CollState) (r : Nat) :
    CEvent.update ∉ (Collection.mergeNewIntoOld s r).2 := by
  unfold Collection.mergeNewIntoOld
  split
  · exact update_not_mem_modelSetAttributes _ _ _
  · simp

lemma update_not_mem_mergeOldIntoNew (s : CollState) (r : Nat) :
    CEvent.update ∉ (Collection.mergeOldIntoNew s r).2 := by
  unfold Collection.mergeOldIntoNew
  split
  · intro h
    rcases List.mem_append.mp h with h1 | h1
    · rcases List.mem_append.mp h1 with h2 | h2
      · exact update_not_mem_modelSetAttributes _ _ _ h2
      · exact update_not_mem_sortColl _ h2
    · simp at h1
  · simp

lemma update_not_mem_dispatchAdd (s : CollState) (r : Nat) (strategy : String) :
    CEvent.update ∉ (Collection.dispatchAdd s r strategy).2 := by
  unfold Collection.dispatchAdd Collection.handleDuplicate
  split
  · exact update_not_mem_addModelPath _ _
  split
  · split
    · exact update_not_mem_replaceModel _ _
    split
    · exact update_not_mem_mergeNewIntoOld _ _
    split
    · exact update_not_mem_mergeOldIntoNew _ _
    · simp
  · exact update_not_mem_addModelPath _ _

lemma update_not_mem_addGo (s : CollState) (items : List Collection.AddItem)
    (strategy : String) :
    CEvent.update ∉ (Collection.addGo s items strategy).trace := by
  induction items generalizing s with
  | nil => simp [Collection.addGo]
  | cons item rest ih =>
      unfold Collection.addGo
      split
      · simp
      · intro h
        rcases List.mem_append.mp h with h1 | h1
        · exact update_not_mem_dispatchAdd _ _ _ h1
        · exact ih _ h1

/-- C1: every add call that completes without throwing emits exactly one
`update` event, and it is the final event of the call — strictly after every
per-item event — the empty item list included. -/
theorem claim1_add_single_trailing_update (s : CollState)
    (items : List Collection.AddItem) (strategy : String)
    (h : (Collection.add s items strategy).err = none) :
    (Collection.add s items strategy).trace.count CEvent.update = 1 ∧
    (Collection.add s items strategy).trace.getLast? = some CEvent.update := by
  by_cases hbad : ∃ x ∈ items, Collection.badAddItem s x = true
  · exfalso
    simp [Collection.add, hbad] at h
  · rcases hgo : (Collection.addGo s items strategy).err with _ | e
    · have htr : (Collection.add s items strategy).trace
          = (Collection.addGo s items strategy).trace ++ [CEvent.update] := by
        simp [Collection.add, hbad, hgo]
      rw [htr]
      constructor
      · rw [List.count_append,
            List.count_eq_zero_of_not_mem (update_not_mem_addGo s items strategy)]
        rfl
      · exact List.getLast?_concat _
    · exfalso
      simp [Collection.add, hbad, hgo] at h

/-- Witness for C1: the empty item list on the empty collection. -/
theorem claim1_witness :
    (Collection.add emptyColl [] "ignore").err = none ∧
    ((Collection.add emptyColl [] "ignore").trace.count CEvent.update = 1 ∧
     (Collection.add emptyColl [] "ignore").trace.getLast? = some CEvent.update) :=
  ⟨by decide, claim1_add_single_trailing_update emptyColl [] "ignore" (by decide)⟩

/-! Helper lemmas about object lookups and the attribute-setting loop. -/

lemma strictEq_num_symm (a b : JSNum) : a.strictEq b = b.strictEq a := by
  cases a <;> cases b <;> simp [JSNum.strictEq, eq_comm]

lemma strictEq_symm (a b : JSVal) : strictEq a b = strictEq b a := by
  cases a <;> cases b <;> simp [strictEq, eq_comm, strictEq_num_symm]

lemma lookupOpt_cons_self (k : String) (v : JSVal) (rest : Obj) :
    lookupOpt ((k, v) :: rest) k = some v := by
  simp [lookupOpt]

lemma lookupOpt_cons_ne (k k' : String) (v : JSVal) (rest : Obj) (h : k' ≠ k) :
    lookupOpt ((k', v) :: rest) k = lookupOpt rest k := by
  simp [lookupOpt, List.find?_cons, h]

lemma lookupAttr_setKey_self (o : Obj) (k : String) (v : JSVal) :
    lookupAttr (setKey o k v) k = v := by
  induction o with
  | nil => simp [setKey, lookupAttr, lookupOpt]
  | cons p rest ih =>
      obtain ⟨k', v'⟩ := p
      by_cases h : k' = k
      · subst h
        simp [setKey, lookupAttr, lookupOpt]
      · simp only [setKey, beq_iff_eq, if_neg h]
        rw [lookupAttr, lookupOpt_cons_ne _ _ _ _ h]
        exact ih

lemma lookupAttr_setKey_ne (o : Obj) (k k' : String) (v : JSVal) (h : k ≠ k') :
    lookupAttr (setKey o k' v) k = lookupAttr o k := by
  induction o with
  | nil =>
      show lookupAttr [(k', v)] k = lookupAttr [] k
      rw [lookupAttr, lookupOpt_cons_ne _ _ _ _ (Ne.symm h)]
      rfl
  | cons p rest ih =>
      obtain ⟨k0, v0⟩ := p
      by_cases h0 : k0 = k'
      · subst h0
        simp only [setKey, beq_self_eq_true, if_pos]
        rw [lookupAttr, lookupOpt_cons_ne _ _ _ _ (Ne.symm h),
          lookupAttr, lookupOpt_cons_ne _ _ _ _ (Ne.symm h)]
      · simp only [setKey, beq_iff_eq, if_neg h0]
        by_cases hk : k0 = k
        · subst hk
          rw [lookupAttr, lookupOpt_cons_self, lookupAttr, lookupOpt_cons_self]
        · rw [lookupAttr, lookupOpt_cons_ne _ _ _ _ hk,
            lookupAttr, lookupOpt_cons_ne _ _ _ _ hk]
          exact ih


lemma setAttributesGo_skip_keys (a na : Obj) (k : String) (hk : k ∉ keysOf na) :
    lookupAttr (setAttributesGo a na).1 k = lookupAttr a k ∧
      ∀ w, MEvent.changeKey k w ∉ (setAttributesGo a na).2 := by
  induction na generalizing a with
  | nil => exact ⟨rfl, by simp [setAttributesGo]⟩
  | cons p rest ih =>
      obtain ⟨k0, v0⟩ := p
      have hne : k ≠ k0 := by
        intro h
        exact hk (by simp [keysOf, h])
      have hrest : k ∉ keysOf rest := by
        intro h
        exact hk (by simp [keysOf] at h ⊢; exact Or.inr h)
      unfold setAttributesGo
      split
      · rcases ih (setKey a k0 v0) hrest with ⟨h1, h2⟩
        refine ⟨by rw [h1]; exact lookupAttr_setKey_ne _ _ _ _ hne, ?_⟩
        intro w hw
        rcases List.mem_cons.mp hw with hw | hw
        · exact hne (by injection hw)
        · exact h2 w hw
      · exact ih a hrest

lemma setAttributesGo_char (a na : Obj) (k : String) (v : JSVal)
    (hmem : (k, v) ∈ na) (hnd : (keysOf na).Nodup) :
    (checkToUpdate k v (lookupAttr a k) = true →
       lookupAttr (setAttributesGo a na).1 k = v ∧
         MEvent.changeKey k v ∈ (setAttributesGo a na).2) ∧
    (checkToUpdate k v (lookupAttr a k) = false →
       lookupAttr (setAttributesGo a na).1 k = lookupAttr a k ∧
         ∀ w, MEvent.changeKey k w ∉ (setAttributesGo a na).2) := by
  induction na generalizing a with
  | nil => cases hmem
  | cons p rest ih =>
      obtain ⟨k0, v0⟩ := p
      have hnd0 : k0 ∉ keysOf rest := (List.nodup_cons.mp hnd).1
      have hndr : (keysOf rest).Nodup := (List.nodup_cons.mp hnd).2
      rcases List.mem_cons.mp hmem with heq | hmem'
      · injection heq with hk hv
        subst hk; subst hv
        constructor
        · intro hc
          unfold setAttributesGo
          rw [if_pos hc]
          rcases setAttributesGo_skip_keys (setKey a k v) rest k hnd0 with ⟨h1, _⟩
          exact ⟨by rw [h1]; exact lookupAttr_setKey_self _ _ _, by simp⟩
        · intro hc
          unfold setAttributesGo
          rw [if_neg (by simp [hc])]
          rcases setAttributesGo_skip_keys a rest k hnd0 with ⟨h1, h2⟩
          exact ⟨h1, h2⟩
      · have hne : k ≠ k0 := by
          intro h
          subst h
          exact hnd0 (List.mem_map_of_mem _ hmem')
        unfold setAttributesGo
        split
        · have hlk : lookupAttr (setKey a k0 v0) k = lookupAttr a k :=
            lookupAttr_setKey_ne _ _ _ _ hne
          rcases ih (setKey a k0 v0) hmem' hndr with ⟨ht, hf⟩
          rw [hlk] at ht hf
          constructor
          · intro hc
            rcases ht hc with ⟨h1, h2⟩
            exact ⟨h1, List.mem_cons_of_mem _ h2⟩
          · intro hc
            rcases hf hc with ⟨h1, h2⟩
            refine ⟨h1, fun w hw => ?_⟩
            rcases List.mem_cons.mp hw with hw | hw
            · exact hne (by injection hw)
            · exact h2 w hw
        · exact ih a hmem' hndr

lemma checkToUpdate_false_iff (k : String) (v old : JSVal) :
    checkToUpdate k v old = false ↔
      (strictEq v old = true ∨ (k = "id" ∧ checkId v = false)) := by
  unfold checkToUpdate
  split
  · rename_i h
    simp [h]
  · rename_i h
    split
    · rename_i h2
      simp only [Bool.and_eq_true, beq_iff_eq, Bool.not_eq_true'] at h2
      simp [h2]
    · rename_i h2
      simp only [Bool.and_eq_true, beq_iff_eq, Bool.not_eq_true', not_and] at h2
      constructor
      · intro hfalse
        exact Bool.noConfusion hfalse
      · intro hor
        rcases hor with hor | ⟨hk, hv⟩
        · exact absurd hor h
        · exact absurd hv (h2 hk)

lemma setAttributes_attrs (m : ModelData) (na : Obj) :
    (Model.setAttributes m na).1.attrs = (setAttributesGo m.attrs na).1 := rfl

lemma setAttributes_prev (m : ModelData) (na : Obj) :
    (Model.setAttributes m na).1.prev = m.prev := rfl

lemma changeKey_mem_setAttributes (m : ModelData) (na : Obj) (k : String) (w : JSVal) :
    MEvent.changeKey k w ∈ (Model.setAttributes m na).2 ↔
      MEvent.changeKey k w ∈ (setAttributesGo m.attrs na).2 := by
  simp [Model.setAttributes]

/-- C5 (amended): a key of a `setAttributes` call is skipped — stored value
unchanged, no scoped change event — exactly when the new value strictly
equals (`===`) the current value, so NaN re-writes are not skipped and
negative-zero overwrites of positive zero are, or when the key is `id` and
the new value is not a valid identifier; otherwise the key is written and its
scoped change event fires. -/
theorem claim5_set_skip_characterisation (m : ModelData) (newAttrs : Obj)
    (k : String) (v : JSVal)
    (hmem : (k, v) ∈ newAttrs) (hnd : (keysOf newAttrs).Nodup) :
    ((strictEq v (lookupAttr m.attrs k) = true ∨ (k = "id" ∧ checkId v = false)) →
       lookupAttr (Model.setAttributes m newAttrs).1.attrs k = lookupAttr m.attrs k ∧
         ∀ w, MEvent.changeKey k w ∉ (Model.setAttributes m newAttrs).2) ∧
    (¬(strictEq v (lookupAttr m.attrs k) = true ∨ (k = "id" ∧ checkId v = false)) →
       lookupAttr (Model.setAttributes m newAttrs).1.attrs k = v ∧
         MEvent.changeKey k v ∈ (Model.setAttributes m newAttrs).2) := by
  rcases setAttributesGo_char m.attrs newAttrs k v hmem hnd with ⟨ht, hf⟩
  constructor
  · intro hcond
    have hc : checkToUpdate k v (lookupAttr m.attrs k) = false :=
      (checkToUpdate_false_iff _ _ _).mpr hcond
    rcases hf hc with ⟨h1, h2⟩
    rw [setAttributes_attrs]
    refine ⟨h1, fun w hw => h2 w ?_⟩
    exact (changeKey_mem_setAttributes m newAttrs k w).mp hw
  · intro hcond
    have hc : checkToUpdate k v (lookupAttr m.attrs k) = true := by
      rcases Bool.eq_false_or_eq_true (checkToUpdate k v (lookupAttr m.attrs k)) with h | h
      · exact h
      · exact absurd ((checkToUpdate_false_iff _ _ _).mp h) hcond
    rcases ht hc with ⟨h1, h2⟩
    rw [setAttributes_attrs]
    exact ⟨h1, (changeKey_mem_setAttributes m newAttrs k v).mpr h2⟩

/-- Witness for C5: on a model holding a = 2, setting a = 2 (identical) and
b = 3 (fresh) skips the key a. -/
theorem claim5_witness :
    (("a", jn 2) ∈ ([("a", jn 2), ("b", jn 3)] : Obj) ∧
      (keysOf [("a", jn 2), ("b", jn 3)]).Nodup) ∧
    (((strictEq (jn 2) (lookupAttr c7Model.attrs "a") = true ∨
        ("a" = "id" ∧ checkId (jn 2) = false)) →
       lookupAttr (Model.setAttributes c7Model [("a", jn 2), ("b", jn 3)]).1.attrs "a" =
           lookupAttr c7Model.attrs "a" ∧
         ∀ w, MEvent.changeKey "a" w ∉
           (Model.setAttributes c7Model [("a", jn 2), ("b", jn 3)]).2) ∧
     (¬(strictEq (jn 2) (lookupAttr c7Model.attrs "a") = true ∨
         ("a" = "id" ∧ checkId (jn 2) = false)) →
       lookupAttr (Model.setAttributes c7Model [("a", jn 2), ("b", jn 3)]).1.attrs "a" = jn 2 ∧
         MEvent.changeKey "a" (jn 2) ∈
           (Model.setAttributes c7Model [("a", jn 2), ("b", jn 3)]).2)) :=
  ⟨by decide,
   claim5_set_skip_characterisation c7Model [("a", jn 2), ("b", jn 3)] "a" (jn 2)
     (by decide) (by decide)⟩

/-! Helper lemmas for the change-tracking round trip. -/

lemma setAttributesGo_singleton (a : Obj) (k : String) (v : JSVal) :
    setAttributesGo a [(k, v)] =
      if checkToUpdate k v (lookupAttr a k) then (setKey a k v, [.changeKey k v])
      else (a, []) := by
  unfold setAttributesGo
  split <;> rfl

lemma checkToUpdate_of (k : String) (v old : JSVal)
    (hne : strictEq v old = false) (hid : k = "id" → checkId v = true) :
    checkToUpdate k v old = true := by
  rcases Bool.eq_false_or_eq_true (checkToUpdate k v old) with h | h
  · exact h
  · rcases (checkToUpdate_false_iff _ _ _).mp h with hc | ⟨hk, hv⟩
    · rw [hne] at hc
      exact Bool.noConfusion hc
    · rw [hid hk] at hv
      exact Bool.noConfusion hv

lemma checkToUpdate_true_strictEq (k : String) (v old : JSVal)
    (h : checkToUpdate k v old = true) : strictEq v old = false := by
  rcases Bool.eq_false_or_eq_true (strictEq v old) with hs | hs
  · have : checkToUpdate k v old = false := (checkToUpdate_false_iff _ _ _).mpr (Or.inl hs)
    rw [this] at h
    exact Bool.noConfusion h
  · exact hs

/-- C6 (amended): `hasChanged()` is false exactly when every key of the union
of live and snapshot keys holds a live value same-value-equal to its snapshot
value; and the set-then-set-back round trip restores `hasChanged(key)` to
false for every key whose original value is either not under the `id`
validity rule (any key other than `id`) or a valid identifier — setting `id`
back to undefined is the one rejected write. -/
theorem claim6_hasChanged_iff_roundtrip (m m2 : ModelData) (k : String) (v1 : JSVal)
    (h1 : sameValue (lookupAttr m2.attrs k) (lookupAttr m2.prev k) = true)
    (h2 : k = "id" → checkId (lookupAttr m2.attrs k) = true) :
    (Model.hasChanged m = false ↔
      ∀ key ∈ keysOf m.attrs ++ keysOf m.prev,
        sameValue (lookupAttr m.attrs key) (lookupAttr m.prev key) = true) ∧
    Model.hasChangedKey
      ((Model.setAttributes ((Model.setAttributes m2 [(k, v1)]).1)
          [(k, lookupAttr m2.attrs k)]).1) k = false := by
  constructor
  · unfold Model.hasChanged
    rw [List.any_eq_false]
    constructor
    · intro h key hk
      simpa using h key hk
    · intro h key hk
      simp [h key hk]
  · have hprev1 : (Model.setAttributes m2 [(k, v1)]).1.prev = m2.prev := setAttributes_prev _ _
    have hprev2 :
        ((Model.setAttributes ((Model.setAttributes m2 [(k, v1)]).1)
            [(k, lookupAttr m2.attrs k)]).1).prev = m2.prev := by
      rw [setAttributes_prev, hprev1]
    have hfinal :
        lookupAttr ((Model.setAttributes ((Model.setAttributes m2 [(k, v1)]).1)
            [(k, lookupAttr m2.attrs k)]).1).attrs k = lookupAttr m2.attrs k := by
      rw [setAttributes_attrs, setAttributesGo_singleton]
      have ha1 : (Model.setAttributes m2 [(k, v1)]).1.attrs =
          (if checkToUpdate k v1 (lookupAttr m2.attrs k) then setKey m2.attrs k v1
           else m2.attrs) := by
        rw [setAttributes_attrs, setAttributesGo_singleton]
        split <;> rfl
      by_cases hc1 : checkToUpdate k v1 (lookupAttr m2.attrs k) = true
      · have hl1 : lookupAttr (Model.setAttributes m2 [(k, v1)]).1.attrs k = v1 := by
          rw [ha1, if_pos hc1]
          exact lookupAttr_setKey_self _ _ _
        have hs : strictEq (lookupAttr m2.attrs k) v1 = false := by
          rw [strictEq_symm]
          exact checkToUpdate_true_strictEq _ _ _ hc1
        have hc2 : checkToUpdate k (lookupAttr m2.attrs k)
            (lookupAttr (Model.setAttributes m2 [(k, v1)]).1.attrs k) = true := by
          rw [hl1]
          exact checkToUpdate_of _ _ _ hs h2
        rw [if_pos hc2]
        exact lookupAttr_setKey_self _ _ _
      · have hl1 : lookupAttr (Model.setAttributes m2 [(k, v1)]).1.attrs k =
            lookupAttr m2.attrs k := by
          rw [ha1, if_neg hc1]
        rw [hl1]
        split
        · exact lookupAttr_setKey_self _ _ _
        · exact hl1
    unfold Model.hasChangedKey
    rw [hfinal, hprev2, h1]
    rfl

/-- Witness for C6: a model with a = 2 (unchanged), the key a set to 7 and
back to 2. -/
theorem claim6_witness :
    (sameValue (lookupAttr c7Model.attrs "a") (lookupAttr c7Model.prev "a") = true ∧
      ("a" = "id" → checkId (lookupAttr c7Model.attrs "a") = true)) ∧
    ((Model.hasChanged c5Model = false ↔
       ∀ key ∈ keysOf c5Model.attrs ++ keysOf c5Model.prev,
         sameValue (lookupAttr c5Model.attrs key) (lookupAttr c5Model.prev key) = true) ∧
     Model.hasChangedKey
       ((Model.setAttributes ((Model.setAttributes c7Model [("a", jn 7)]).1)
           [("a", lookupAttr c7Model.attrs "a")]).1) "a" = false) :=
  ⟨⟨by decide, by decide⟩,
   claim6_hasChanged_iff_roundtrip c5Model c7Model "a" (jn 7) (by decide) (by decide)⟩

/-! Helper lemmas about merged objects. -/

lemma lookupAttr_cons_self (k : String) (v : JSVal) (rest : Obj) :
    lookupAttr ((k, v) :: rest) k = v := by
  rw [lookupAttr, lookupOpt_cons_self]
  rfl

lemma lookupAttr_cons_ne (k k' : String) (v : JSVal) (rest : Obj) (h : k' ≠ k) :
    lookupAttr ((k', v) :: rest) k = lookupAttr rest k := by
  rw [lookupAttr, lookupOpt_cons_ne _ _ _ _ h]
  rfl

lemma hasKey_cons_ne (k0 : String) (v0 : JSVal) (rest : Obj) (k : String) (h : k0 ≠ k) :
    hasKey ((k0, v0) :: rest) k = hasKey rest k := by
  unfold hasKey
  rw [lookupOpt_cons_ne _ _ _ _ h]

lemma lookupAttr_eq_undef_of_not_hasKey (o : Obj) (k : String) (h : hasKey o k = false) :
    lookupAttr o k = .undef := by
  unfold hasKey at h
  rcases hl : lookupOpt o k with _ | v
  · rw [lookupAttr, hl]
    rfl
  · rw [hl] at h
    exact Bool.noConfusion h

lemma lookupOpt_append (l1 l2 : Obj) (k : String) :
    lookupOpt (l1 ++ l2) k =
      match lookupOpt l1 k with
      | some v => some v
      | none => lookupOpt l2 k := by
  unfold lookupOpt
  rw [List.find?_append]
  rcases hl : List.find? (fun p => p.1 == k) l1 with _ | p <;> simp [hl]

lemma lookupOpt_filter_congr (b : Obj) (p q : String × JSVal → Bool) (k : String)
    (hpq : ∀ v, p (k, v) = q (k, v)) :
    lookupOpt (b.filter p) k = lookupOpt (b.filter q) k := by
  induction b with
  | nil => rfl
  | cons x rest ih =>
      obtain ⟨k1, v1⟩ := x
      by_cases h1 : k1 = k
      · subst h1
        rw [List.filter_cons, List.filter_cons, hpq v1]
        rcases hq : q (k1, v1) with _ | _
        · simp only [Bool.false_eq_true, if_false]
          exact ih
        · simp only [if_true]
          rw [lookupOpt_cons_self, lookupOpt_cons_self]
      · rw [List.filter_cons, List.filter_cons]
        rcases hp : p (k1, v1) with _ | _ <;> rcases hq : q (k1, v1) with _ | _ <;>
          simp only [Bool.false_eq_true, if_false, if_true]
        · exact ih
        · rw [lookupOpt_cons_ne _ _ _ _ h1]
          exact ih
        · rw [lookupOpt_cons_ne _ _ _ _ h1]
          exact ih
        · rw [lookupOpt_cons_ne _ _ _ _ h1, lookupOpt_cons_ne _ _ _ _ h1]
          exact ih

lemma lookupAttr_objAssign (a b : Obj) (k : String) :
    lookupAttr (objAssign a b) k =
      if hasKey b k then lookupAttr b k else lookupAttr a k := by
  induction a with
  | nil =>
      have hfil : objAssign [] b = b := by
        unfold objAssign
        simp [hasKey, lookupOpt]
      rw [hfil]
      rcases hb : hasKey b k with _ | _
      · simp only [Bool.false_eq_true, if_false]
        rw [lookupAttr_eq_undef_of_not_hasKey b k hb]
        rfl
      · simp only [if_true]
  | cons p rest ih =>
      obtain ⟨k0, v0⟩ := p
      have hassign : objAssign ((k0, v0) :: rest) b =
          (k0, if hasKey b k0 then lookupAttr b k0 else v0) ::
            (rest.map (fun p => (p.1, if hasKey b p.1 then lookupAttr b p.1 else p.2)) ++
              b.filter (fun p => !hasKey ((k0, v0) :: rest) p.1)) := by
        unfold objAssign
        simp
      by_cases h0 : k0 = k
      · subst h0
        rw [hassign, lookupAttr_cons_self, lookupAttr_cons_self]
      · rw [hassign, lookupAttr_cons_ne _ _ _ _ h0, lookupAttr_cons_ne _ _ _ _ h0]
        have hfc : lookupOpt (b.filter (fun p => !hasKey ((k0, v0) :: rest) p.1)) k =
            lookupOpt (b.filter (fun p => !hasKey rest p.1)) k := by
          apply lookupOpt_filter_congr
          intro v
          simp only
          rw [hasKey_cons_ne _ _ _ _ h0]
        have hsplit : lookupAttr
            (rest.map (fun p => (p.1, if hasKey b p.1 then lookupAttr b p.1 else p.2)) ++
              b.filter (fun p => !hasKey ((k0, v0) :: rest) p.1)) k =
            lookupAttr (objAssign rest b) k := by
          unfold objAssign
          rw [lookupAttr, lookupAttr, lookupOpt_append, lookupOpt_append, hfc]
        rw [hsplit]
        exact ih


/-- C7 (amended): a successful model fetch whose payload id strictly equals
the model's replaces the snapshot with the raw payload and always emits
`sync` (there is no `silent` option); the live attributes become the payload
merged with the pre-fetch live attributes — live values winning on key
collision — exactly when the effective `keepExistingAsChanges` option is
truthy, which holds for the default (omitted) options object, and otherwise
they become a copy of the payload. -/
theorem claim7_fetch_success (m : ModelData) (options : Option Obj)
    (collUrl : Option String) (resp : Model.MResponse) (u : String)
    (hid : (lookupAttr m.attrs "id" == JSVal.undef) = false)
    (hurl : (if m.coll then collUrl else m.urlRootStr) = some u)
    (hok : resp.ok = true)
    (hmatch : strictEq (lookupAttr resp.body "id") (lookupAttr m.attrs "id") = true) :
    Model.fetchModel m options collUrl resp =
      .ok ({ m with
              prev := resp.body,
              attrs := if truthy (lookupAttr
                           (options.getD [("keepExistingAsChanges", .bool true)])
                           "keepExistingAsChanges")
                       then objAssign resp.body m.attrs else resp.body },
           [MEvent.reset, MEvent.sync]) ∧
    ∀ k, lookupAttr (objAssign resp.body m.attrs) k =
      if hasKey m.attrs k then lookupAttr m.attrs k else lookupAttr resp.body k := by
  constructor
  · simp [Model.fetchModel, Model.reset, hid, hurl, hok, hmatch]
  · intro k
    exact lookupAttr_objAssign resp.body m.attrs k

/-- Witness for C7: the standalone model fetched with the options argument
omitted. -/
theorem claim7_witness :
    ((lookupAttr c7Model.attrs "id" == JSVal.undef) = false ∧
     (if c7Model.coll then none else c7Model.urlRootStr) = some "/things" ∧
     c7Resp.ok = true ∧
     strictEq (lookupAttr c7Resp.body "id") (lookupAttr c7Model.attrs "id") = true) ∧
    (Model.fetchModel c7Model none none c7Resp =
      .ok ({ c7Model with
              prev := c7Resp.body,
              attrs := if truthy (lookupAttr
                           ((none : Option Obj).getD [("keepExistingAsChanges", .bool true)])
                           "keepExistingAsChanges")
                       then objAssign c7Resp.body c7Model.attrs else c7Resp.body },
           [MEvent.reset, MEvent.sync]) ∧
     ∀ k, lookupAttr (objAssign c7Resp.body c7Model.attrs) k =
       if hasKey c7Model.attrs k then lookupAttr c7Model.attrs k
       else lookupAttr c7Resp.body k) :=
  ⟨⟨by decide, by decide, by decide, by decide⟩,
   claim7_fetch_success c7Model none none c7Resp "/things"
     (by decide) (by decide) (by decide) (by decide)⟩

/-! Helper lemmas: the add and update phases of a collection fetch never emit
`remove`, and the removal phase emits exactly the spliced members. -/

lemma remove_not_mem_sortColl (s : CollState) (m : Nat) :
    CEvent.remove m ∉ (Collection.sortColl s).2 := by
  simp only [Collection.sortColl]
  split <;> simp

lemma remove_not_mem_modelSetAttributes (s : CollState) (r : Nat) (na : Obj) (m : Nat) :
    CEvent.remove m ∉ (Collection.modelSetAttributes s r na).2 := by
  unfold Collection.modelSetAttributes
  split
  · intro h
    rcases List.mem_append.mp h with h1 | h1
    · rcases List.mem_append.mp h1 with h2 | h2
      · rcases List.mem_map.mp h2 with ⟨e, _, he⟩
        exact CEvent.noConfusion he
      · simp at h2
    · exact remove_not_mem_sortColl _ _ h1
  · simp

lemma remove_not_mem_dispatchAdd (s : CollState) (r : Nat) (strategy : String) (m : Nat) :
    CEvent.remove m ∉ (Collection.dispatchAdd s r strategy).2 := by
  have hpath : ∀ t : CollState, ∀ rr : Nat,
      CEvent.remove m ∉ (Collection.addModelPath t rr).2 := by
    intro t rr h
    rcases List.mem_append.mp h with h1 | h1
    · exact remove_not_mem_sortColl _ _ h1
    · simp at h1
  unfold Collection.dispatchAdd Collection.handleDuplicate
  split
  · exact hpath _ _
  split
  · split
    · unfold Collection.replaceModel
      split
      · intro h
        rcases List.mem_append.mp h with h1 | h1
        · exact remove_not_mem_sortColl _ _ h1
        · simp at h1
      · simp
    split
    · unfold Collection.mergeNewIntoOld
      split
      · exact remove_not_mem_modelSetAttributes _ _ _ _
      · simp
    split
    · unfold Collection.mergeOldIntoNew
      split
      · intro h
        rcases List.mem_append.mp h with h1 | h1
        · rcases List.mem_append.mp h1 with h2 | h2
          · exact remove_not_mem_modelSetAttributes _ _ _ _ h2
          · exact remove_not_mem_sortColl _ _ h2
        · simp at h1
      · simp
    · simp
  · exact hpath _ _

lemma remove_not_mem_addGo (s : CollState) (items : List Collection.AddItem)
    (strategy : String) (m : Nat) :
    CEvent.remove m ∉ (Collection.addGo s items strategy).trace := by
  induction items generalizing s with
  | nil => simp [Collection.addGo]
  | cons item rest ih =>
      unfold Collection.addGo
      split
      · simp
      · intro h
        rcases List.mem_append.mp h with h1 | h1
        · exact remove_not_mem_dispatchAdd _ _ _ _ h1
        · exact ih _ h1

lemma remove_not_mem_add (s : CollState) (items : List Collection.AddItem)
    (strategy : String) (m : Nat) :
    CEvent.remove m ∉ (Collection.add s items strategy).trace := by
  unfold Collection.add
  split
  · simp
  · rcases hgo : (Collection.addGo s items strategy).err with _ | e
    · simp only [hgo]
      intro h
      rcases List.mem_append.mp h with h1 | h1
      · exact remove_not_mem_addGo _ _ _ _ h1
      · simp at h1
    · simp only [hgo]
      exact remove_not_mem_addGo _ _ _ _

lemma remove_not_mem_resetLoop (s : CollState) (data : List Obj) (mergeOpt : Bool)
    (m : Nat) :
    CEvent.remove m ∉ (Collection.resetLoop s data mergeOpt).2.1 := by
  induction data generalizing s with
  | nil => simp [Collection.resetLoop]
  | cons datum rest ih =>
      unfold Collection.resetLoop
      split
      · simp
      · intro h
        rcases List.mem_append.mp h with h1 | h1
        · rcases List.mem_map.mp h1 with ⟨e, _, he⟩
          exact CEvent.noConfusion he
        · exact ih _ h1

lemma getRef_of_mem (s : CollState) (r : Nat) (h : r ∈ s.members) :
    Collection.getRef s r = some r := by
  simp [Collection.getRef, h]

lemma removeLoop_trace (s : CollState) (l : List Nat) :
    (Collection.removeLoop s l).2 = l.map CEvent.remove := by
  induction l generalizing s with
  | nil => rfl
  | cons r rest ih => simp [Collection.removeLoop, ih]

lemma removeColl_trace_of_members (s : CollState) (xs : List Nat)
    (h : ∀ x ∈ xs, x ∈ s.members) :
    (Collection.removeColl s xs).2.1 = xs.map CEvent.remove ++ [CEvent.update] := by
  have hred : (xs.map (fun r => Collection.getRef s r)).reduceOption = xs := by
    induction xs with
    | nil => rfl
    | cons x rest ih =>
        rw [List.map_cons, getRef_of_mem s x (h x (List.mem_cons_self x rest)),
          List.reduceOption_cons_of_some,
          ih (fun y hy => h y (List.mem_cons_of_mem x hy))]
  simp only [Collection.removeColl, hred, removeLoop_trace]

lemma filter_isRemove_map_remove (l : List Nat) :
    (l.map CEvent.remove).filter isRemoveEv = l.map CEvent.remove := by
  induction l with
  | nil => rfl
  | cons x rest ih => simp [isRemoveEv, ih]

lemma filter_isRemove_add (s : CollState) (items : List Collection.AddItem)
    (strategy : String) :
    ((Collection.add s items strategy).trace).filter isRemoveEv = [] := by
  rw [List.filter_eq_nil_iff]
  intro e he
  cases e <;> simp [isRemoveEv]
  exact remove_not_mem_add _ _ _ _ he

lemma filter_isRemove_resetLoop (s : CollState) (data : List Obj) (mergeOpt : Bool) :
    ((Collection.resetLoop s data mergeOpt).2.1).filter isRemoveEv = [] := by
  rw [List.filter_eq_nil_iff]
  intro e he
  cases e <;> simp [isRemoveEv]
  exact remove_not_mem_resetLoop _ _ _ _ he

/-- C3 (amended): a collection fetch with the remove option removes exactly
the members whose id is absent (under SameValueZero) from the payload ids —
the filter is applied to all current members, so identifier-less (new)
members are also removed whenever no payload item has an undefined id. -/
theorem claim3_fetch_removal_partition (s : CollState) (addOpt mergeOpt : Bool)
    (st : Nat) (data : List Obj) (u : String) (hurl : s.urlStr = some u) :
    (Collection.fetchColl s addOpt true mergeOpt
        { ok := true, status := st, body := some data }).trace.filter isRemoveEv =
      (s.members.filter (fun r =>
        !Collection.jsIncludes (data.map (fun datum => lookupAttr datum "id"))
          (idOf s r))).map CEvent.remove := by
  have hremfil : ((Collection.removeColl s
      (s.members.filter (fun r =>
        !Collection.jsIncludes (data.map (fun datum => lookupAttr datum "id"))
          (idOf s r)))).2.1).filter isRemoveEv =
      (s.members.filter (fun r =>
        !Collection.jsIncludes (data.map (fun datum => lookupAttr datum "id"))
          (idOf s r))).map CEvent.remove := by
    rw [removeColl_trace_of_members s _ (fun x hx => List.mem_of_mem_filter hx),
      List.filter_append, filter_isRemove_map_remove]
    simp [isRemoveEv]
  simp only [Collection.fetchColl, hurl, Bool.not_true, Bool.false_eq_true, if_false,
    if_true]
  cases addOpt with
  | false =>
      simp only [Bool.false_eq_true, if_false]
      split <;>
        simp [List.filter_append, hremfil, filter_isRemove_add,
          filter_isRemove_resetLoop, isRemoveEv]
  | true =>
      simp only [if_true]
      split <;> (try split) <;>
        simp [List.filter_append, hremfil, filter_isRemove_add,
          filter_isRemove_resetLoop, isRemoveEv]

/-- Witness for C3 (amended): a one-member collection fetched against an
empty payload with the default options removes that member. -/
theorem claim3_witness :
    c3State.urlStr = some "/things" ∧
    (Collection.fetchColl c3State true true true
        { ok := true, status := 200, body := some [] }).trace.filter isRemoveEv =
      (c3State.members.filter (fun r =>
        !Collection.jsIncludes (([] : List Obj).map (fun datum => lookupAttr datum "id"))
          (idOf c3State r))).map CEvent.remove :=
  ⟨by decide,
   claim3_fetch_removal_partition c3State true true 200 [] "/things" (by decide)⟩

/-! Helper lemmas for the duplicate-merge path. -/

lemma indexOf?_isSome_of_mem (l : List Nat) (r : Nat) (h : r ∈ l) :
    ∃ i, List.indexOf? r l = some i := by
  induction l with
  | nil => cases h
  | cons x rest ih =>
      by_cases hx : x = r
      · exact ⟨0, by simp [List.indexOf?_cons, hx]⟩
      · have hr : r ∈ rest := by
          rcases List.mem_cons.mp h with h1 | h1
          · exact absurd h1.symm hx
          · exact h1
        rcases ih hr with ⟨i, hi⟩
        exact ⟨i + 1, by simp [List.indexOf?_cons, hx, hi]⟩

lemma spliceRemove_of_mem (l : List Nat) (r : Nat) (h : r ∈ l) :
    Collection.spliceRemove l r = l.erase r := by
  induction l with
  | nil => cases h
  | cons x rest ih =>
      by_cases hx : x = r
      · subst hx
        simp [Collection.spliceRemove, List.indexOf?_cons]
      · have hr : r ∈ rest := by
          rcases List.mem_cons.mp h with h1 | h1
          · exact absurd h1.symm hx
          · exact h1
        have hrec := ih hr
        unfold Collection.spliceRemove at hrec ⊢
        rw [List.indexOf?_cons, if_neg (by simp [hx])]
        rcases hidx : List.indexOf? r rest with _ | i
        · rcases indexOf?_isSome_of_mem rest r hr with ⟨i, hi⟩
          rw [hidx] at hi
          exact Option.noConfusion hi
        · rw [hidx] at hrec
          rw [List.erase_cons_tail (by simp [hx]), ← hrec]
          rfl

lemma insertSorted_perm (lt : Nat → Nat → Bool) (x : Nat) (l : List Nat) :
    (Collection.insertSorted lt x l).Perm (x :: l) := by
  induction l with
  | nil => exact List.Perm.refl _
  | cons y ys ih =>
      unfold Collection.insertSorted
      split
      · exact ((ih.cons y).trans (List.Perm.swap x y ys))
      · exact List.Perm.refl _

lemma insertionSort_perm (lt : Nat → Nat → Bool) (l : List Nat) :
    (Collection.insertionSort lt l).Perm l := by
  induction l with
  | nil => exact List.Perm.refl _
  | cons x xs ih =>
      unfold Collection.insertionSort
      exact (insertSorted_perm lt x _).trans (ih.cons x)

lemma sortColl_members (t : CollState) :
    (Collection.sortColl t).1.members =
      Collection.insertionSort (fun a b => numNeg (Collection.comparator t a b)) t.members :=
  rfl

lemma sortColl_heap (t : CollState) : (Collection.sortColl t).1.heap = t.heap := rfl

lemma lt_length_of_chain (s : CollState) (r : Nat) (c : Nat)
    (h : (getModel s r).chain.contains c = true) : r < s.heap.length := by
  by_contra hn
  push_neg at hn
  have hd : getModel s r = default := by
    unfold getModel
    rw [List.getD_eq_getElem?_getD, List.getElem?_eq_none hn]
    rfl
  rw [hd] at h
  exact Bool.noConfusion h

lemma mem_of_hasKey (o : Obj) (k : String) (h : hasKey o k = true) :
    (k, lookupAttr o k) ∈ o := by
  unfold hasKey lookupOpt at h
  rcases hf : o.find? (fun p => p.1 == k) with _ | p
  · rw [hf] at h
    simp at h
  · have hp : p ∈ o := List.mem_of_find?_eq_some hf
    have hk : p.1 = k := by simpa using List.find?_some hf
    have hv : lookupAttr o k = p.2 := by
      rw [lookupAttr, lookupOpt, hf]
      rfl
    rw [hv, ← hk]
    exact hp

lemma not_mem_keys_of_not_hasKey (o : Obj) (k : String) (h : hasKey o k = false) :
    k ∉ keysOf o := by
  induction o with
  | nil => simp [keysOf]
  | cons q rest ih =>
      obtain ⟨q1, q2⟩ := q
      by_cases hq : q1 = k
      · subst hq
        rw [hasKey, lookupOpt_cons_self] at h
        exact absurd h (by simp)
      · rw [hasKey_cons_ne _ _ _ _ hq] at h
        intro hk
        rcases List.mem_cons.mp hk with h1 | h1
        · exact hq h1.symm
        · exact ih h h1

lemma updModel_members (s : CollState) (r : Nat) (m : ModelData) :
    (updModel s r m).members = s.members := rfl

lemma getModel_withMembers (t : CollState) (l : List Nat) (x : Nat) :
    getModel { t with members := l } x = getModel t x := rfl

lemma filter_isReplace_sortColl (t : CollState) :
    ((Collection.sortColl t).2).filter isReplaceEv = [] := by
  simp only [Collection.sortColl]
  split <;> simp [isReplaceEv]

lemma updModel_heap_length (s : CollState) (r : Nat) (m : ModelData) :
    (updModel s r m).heap.length = s.heap.length := by
  simp [updModel]

lemma mergeState_members (s : CollState) (r old : Nat) :
    (mergeState s r old).members = Collection.spliceRemove s.members old ++ [r] := rfl

lemma sortColl_getModel (t : CollState) (x : Nat) :
    getModel (Collection.sortColl t).1 x = getModel t x := rfl

/-- C9: adding a fresh entity whose id duplicates a member, under the
mergeOldIntoNew strategy, succeeds; it emits exactly one replace event with
the (old, new) pair; afterwards the member sequence is (a sort of) the old
sequence with the old member spliced out and the new one appended, so the old
member is gone and the new one present; and every attribute of the incoming
entity ends up (strictly) equal to the old member's attributes laid over its
own — the old member's values winning on key collision. -/
theorem claim9_mergeOldIntoNew (s : CollState) (r old : Nat)
    (hmem : r ∉ s.members) (hnd : s.members.Nodup)
    (hnew : isNewM s r = false)
    (hinst : (getModel s r).chain.contains s.modelCls = true)
    (hold : Collection.getById s (idOf s r) = some old)
    (holdnd : (keysOf (getModel s old).attrs).Nodup) :
    (Collection.add s [Collection.AddItem.modelRef r] "mergeOldIntoNew").err = none ∧
    (Collection.add s [Collection.AddItem.modelRef r] "mergeOldIntoNew").trace.filter
        isReplaceEv = [CEvent.replace old r] ∧
    (Collection.add s [Collection.AddItem.modelRef r]
        "mergeOldIntoNew").state.members.Perm (s.members.erase old ++ [r]) ∧
    old ∉ (Collection.add s [Collection.AddItem.modelRef r]
        "mergeOldIntoNew").state.members ∧
    r ∈ (Collection.add s [Collection.AddItem.modelRef r]
        "mergeOldIntoNew").state.members ∧
    (∀ k, lookupAttr (getModel (Collection.add s [Collection.AddItem.modelRef r]
          "mergeOldIntoNew").state r).attrs k =
        (if hasKey (getModel s old).attrs k then lookupAttr (getModel s old).attrs k
         else lookupAttr (getModel s r).attrs k) ∨
      strictEq
        (lookupAttr (getModel (Collection.add s [Collection.AddItem.modelRef r]
          "mergeOldIntoNew").state r).attrs k)
        (if hasKey (getModel s old).attrs k then lookupAttr (getModel s old).attrs k
         else lookupAttr (getModel s r).attrs k) = true) := by
  have hfind : List.find? (fun rr => strictEq (idOf s rr) (idOf s r)) s.members =
      some old := hold
  have holdmem : old ∈ s.members := List.mem_of_find?_eq_some hfind
  have holdid : strictEq (idOf s old) (idOf s r) = true := by
    have hp := List.find?_some (p := fun rr => strictEq (idOf s rr) (idOf s r)) hfind
    simpa using hp
  have holdne : old ≠ r := fun e => hmem (e ▸ holdmem)
  have hrne : r ≠ old := Ne.symm holdne
  have hlt : r < s.heap.length := lt_length_of_chain s r s.modelCls hinst
  have hdup : (s.members.any fun cm => strictEq (idOf s cm) (idOf s r)) = true :=
    List.any_eq_true.mpr ⟨old, holdmem, holdid⟩
  have hdisp : Collection.dispatchAdd s r "mergeOldIntoNew" =
      Collection.mergeOldIntoNew s r := by
    unfold Collection.dispatchAdd Collection.handleDuplicate
    simp [hnew, hdup]
  have hinstm : s.modelCls ∈ (getModel s r).chain := by simpa using hinst
  have hA : Collection.add s [Collection.AddItem.modelRef r] "mergeOldIntoNew" =
      { state := (Collection.mergeOldIntoNew s r).1,
        trace := (Collection.mergeOldIntoNew s r).2 ++ [CEvent.update],
        err := none } := by
    simp [Collection.add, Collection.addGo, Collection.vivify, Collection.badAddItem,
      hinstm, hdisp]
  have key : Collection.mergeOldIntoNew s r =
      ((Collection.sortColl (mergeState s r old)).1,
       (Collection.sortColl (mergeState s r old)).2 ++ [CEvent.replace old r]) := by
    unfold Collection.mergeOldIntoNew
    simp only [hold]
    unfold Collection.modelSetAttributes
    rw [if_neg (show ¬(r ∈ (updModel s r { getModel s r with coll := true }).members)
      from hmem)]
    unfold mergeState mergedNewModel
    simp only [updModel_members, getModel_withMembers, getModel_updModel_self,
      updModel_heap_length, hlt]
    repeat rw [getModel_updModel_ne _ _ _ _ holdne]
    rw [List.nil_append]
  have hmembers : (Collection.add s [Collection.AddItem.modelRef r]
      "mergeOldIntoNew").state.members.Perm (s.members.erase old ++ [r]) := by
    rw [hA]
    show (Collection.mergeOldIntoNew s r).1.members.Perm _
    rw [key]
    show (Collection.insertionSort _ (mergeState s r old).members).Perm _
    rw [mergeState_members, spliceRemove_of_mem s.members old holdmem]
    exact insertionSort_perm _ _
  refine ⟨by rw [hA], ?_, hmembers, ?_, ?_, ?_⟩
  · rw [hA]
    show ((Collection.mergeOldIntoNew s r).2 ++ [CEvent.update]).filter isReplaceEv = _
    rw [key]
    show (((Collection.sortColl (mergeState s r old)).2 ++ [CEvent.replace old r]) ++
      [CEvent.update]).filter isReplaceEv = _
    rw [List.filter_append, List.filter_append, filter_isReplace_sortColl]
    simp [isReplaceEv]
  · intro hc
    rcases List.mem_append.mp (hmembers.mem_iff.mp hc) with h1 | h1
    · exact hnd.not_mem_erase h1
    · rcases List.mem_cons.mp h1 with h1 | h1
      · exact holdne h1
      · cases h1
  · apply hmembers.mem_iff.mpr
    exact List.mem_append.mpr (Or.inr (List.mem_cons_self _ _))
  · intro k
    have hgr : getModel (Collection.add s [Collection.AddItem.modelRef r]
        "mergeOldIntoNew").state r = mergedNewModel s r old := by
      rw [hA]
      show getModel (Collection.mergeOldIntoNew s r).1 r = _
      rw [key]
      show getModel (Collection.sortColl (mergeState s r old)).1 r = _
      rw [sortColl_getModel]
      unfold mergeState
      rw [getModel_updModel_ne _ _ _ _ hrne, getModel_withMembers]
      exact getModel_updModel_self _ r _
        (by simpa [updModel_heap_length] using hlt)
    rw [hgr]
    have hattrs : (mergedNewModel s r old).attrs =
        (setAttributesGo (getModel s r).attrs (getModel s old).attrs).1 := rfl
    rw [hattrs]
    by_cases hk : hasKey (getModel s old).attrs k = true
    · have hmemk : (k, lookupAttr (getModel s old).attrs k) ∈ (getModel s old).attrs :=
        mem_of_hasKey _ _ hk
      rcases setAttributesGo_char (getModel s r).attrs (getModel s old).attrs k
        (lookupAttr (getModel s old).attrs k) hmemk holdnd with ⟨ht, hf⟩
      rcases hc : checkToUpdate k (lookupAttr (getModel s old).attrs k)
          (lookupAttr (getModel s r).attrs k) with _ | _
      · rcases hf hc with ⟨h1, _⟩
        right
        rw [h1, if_pos hk]
        rcases (checkToUpdate_false_iff _ _ _).mp hc with hs | ⟨hkid, _⟩
        · rw [strictEq_symm]
          exact hs
        · subst hkid
          show strictEq (idOf s r) (idOf s old) = true
          rw [strictEq_symm]
          exact holdid
      · rcases ht hc with ⟨h1, _⟩
        left
        rw [h1, if_pos hk]
    · have hknot : k ∉ keysOf (getModel s old).attrs :=
        not_mem_keys_of_not_hasKey _ _ (by simpa using hk)
      rcases setAttributesGo_skip_keys (getModel s r).attrs (getModel s old).attrs k
        hknot with ⟨h1, _⟩
      left
      rw [h1, if_neg hk]

/-- Witness for C9: the two-model collection, merging model 1 over member 0. -/
theorem claim9_witness :
    (1 ∉ c9State.members ∧ c9State.members.Nodup ∧ isNewM c9State 1 = false ∧
      (getModel c9State 1).chain.contains c9State.modelCls = true ∧
      Collection.getById c9State (idOf c9State 1) = some 0 ∧
      (keysOf (getModel c9State 0).attrs).Nodup) ∧
    ((Collection.add c9State [Collection.AddItem.modelRef 1] "mergeOldIntoNew").err =
        none ∧
     (Collection.add c9State [Collection.AddItem.modelRef 1]
        "mergeOldIntoNew").trace.filter isReplaceEv = [CEvent.replace 0 1] ∧
     (Collection.add c9State [Collection.AddItem.modelRef 1]
        "mergeOldIntoNew").state.members.Perm (c9State.members.erase 0 ++ [1]) ∧
     0 ∉ (Collection.add c9State [Collection.AddItem.modelRef 1]
        "mergeOldIntoNew").state.members ∧
     1 ∈ (Collection.add c9State [Collection.AddItem.modelRef 1]
        "mergeOldIntoNew").state.members ∧
     (lookupAttr (getModel (Collection.add c9State [Collection.AddItem.modelRef 1]
          "mergeOldIntoNew").state 1).attrs "a" =
        (if hasKey (getModel c9State 0).attrs "a" then
          lookupAttr (getModel c9State 0).attrs "a"
         else lookupAttr (getModel c9State 1).attrs "a") ∨
      strictEq
        (lookupAttr (getModel (Collection.add c9State [Collection.AddItem.modelRef 1]
          "mergeOldIntoNew").state 1).attrs "a")
        (if hasKey (getModel c9State 0).attrs "a" then
          lookupAttr (getModel c9State 0).attrs "a"
         else lookupAttr (getModel c9State 1).attrs "a") = true) ∧
     (lookupAttr (getModel (Collection.add c9State [Collection.AddItem.modelRef 1]
          "mergeOldIntoNew").state 1).attrs "c" =
        (if hasKey (getModel c9State 0).attrs "c" then
          lookupAttr (getModel c9State 0).attrs "c"
         else lookupAttr (getModel c9State 1).attrs "c") ∨
      strictEq
        (lookupAttr (getModel (Collection.add c9State [Collection.AddItem.modelRef 1]
          "mergeOldIntoNew").state 1).attrs "c")
        (if hasKey (getModel c9State 0).attrs "c" then
          lookupAttr (getModel c9State 0).attrs "c"
         else lookupAttr (getModel c9State 1).attrs "c") = true)) := by
  have h := claim9_mergeOldIntoNew c9State 1 0 (by decide) (by decide) (by decide)
    (by decide) (by decide) (by decide)
  exact ⟨⟨by decide, by decide, by decide, by decide, by decide, by decide⟩,
    h.1, h.2.1, h.2.2.1, h.2.2.2.1, h.2.2.2.2.1, h.2.2.2.2.2 "a", h.2.2.2.2.2 "c"⟩

/-! Helper lemmas for the comparator and sort order. -/

lemma ratSub_eq (p q : ℚ) : ratSub p q = p - q := by
  have h1 : (p.den : ℚ) ≠ 0 := Nat.cast_ne_zero.mpr p.den_nz
  have h2 : (q.den : ℚ) ≠ 0 := Nat.cast_ne_zero.mpr q.den_nz
  have e1 : (p.num : ℚ) = p * p.den := (div_eq_iff h1).mp (Rat.num_div_den p)
  have e2 : (q.num : ℚ) = q * q.den := (div_eq_iff h2).mp (Rat.num_div_den q)
  unfold ratSub
  rw [Rat.mkRat_eq_div]
  push_cast
  rw [div_eq_iff (mul_ne_zero h1 h2), e1, e2]
  ring

lemma comparator_signs (s : CollState) (a b : Nat) (p q : ℚ)
    (ha : idKey s a = some p) (hb : idKey s b = some q) :
    numNeg (Collection.comparator s a b) = decide (p < q) ∧
    numPos (Collection.comparator s a b) = decide (q < p) := by
  have hc : Collection.comparator s a b =
      (toNumber (idOf s a)).sub (toNumber (idOf s b)) := rfl
  unfold idKey at ha hb
  rcases hx : toNumber (idOf s a) with _ | _ | pp <;> rw [hx] at ha <;>
    rcases hy : toNumber (idOf s b) with _ | _ | qq <;> rw [hy] at hb <;>
    rw [hc, hx, hy] <;>
    simp only [JSNum.q] at ha hb
  · exact Option.noConfusion ha
  · exact Option.noConfusion ha
  · exact Option.noConfusion ha
  · exact Option.noConfusion hb
  · -- negZero, negZero
    injection ha with ha
    injection hb with hb
    subst ha
    subst hb
    simp [JSNum.sub, numNeg, numPos]
  · -- negZero, rat qq
    injection ha with ha
    injection hb with hb
    subst ha
    subst hb
    by_cases hq0 : qq = 0
    · subst hq0
      simp [JSNum.sub, numNeg, numPos]
    · rw [show JSNum.sub .negZero (.rat qq) = .rat (-qq) from by
        simp [JSNum.sub, hq0]]
      constructor
      · show decide (-qq < 0) = decide (0 < qq)
        simp
      · show decide (0 < -qq) = decide (qq < 0)
        simp
  · exact Option.noConfusion hb
  · -- rat pp, negZero
    injection ha with ha
    injection hb with hb
    subst ha
    subst hb
    constructor
    · show decide (pp < 0) = decide (pp < 0)
      rfl
    · show decide (0 < pp) = decide (0 < pp)
      rfl
  · -- rat, rat
    injection ha with ha
    injection hb with hb
    subst ha
    subst hb
    rw [show JSNum.sub (.rat pp) (.rat qq) = .rat (ratSub pp qq) from rfl, ratSub_eq]
    constructor
    · show decide (pp - qq < 0) = decide (pp < qq)
      simp [sub_neg]
    · show decide (0 < pp - qq) = decide (qq < pp)
      simp [sub_pos]

lemma comparator_lt_iff (s : CollState) (a b : Nat)
    (ha : (idKey s a).isSome) (hb : (idKey s b).isSome) :
    numNeg (Collection.comparator s a b) = true ↔
      (idKey s a).getD 0 < (idKey s b).getD 0 := by
  obtain ⟨p, hp⟩ := Option.isSome_iff_exists.mp ha
  obtain ⟨q, hq⟩ := Option.isSome_iff_exists.mp hb
  rw [(comparator_signs s a b p q hp hq).1, hp, hq]
  simp

lemma sorted_transport (s s' : CollState) (l : List Nat)
    (hk : ∀ r ∈ l, idKey s' r = idKey s r)
    (h : List.Sorted (keyLe s) l) : List.Sorted (keyLe s') l := by
  refine List.Pairwise.imp_of_mem ?_ h
  intro a b ha hb hab
  show (idKey s' a).getD 0 ≤ (idKey s' b).getD 0
  rw [hk a ha, hk b hb]
  exact hab

lemma idKey_congr_heap (s s' : CollState) (h : s'.heap = s.heap) (r : Nat) :
    idKey s' r = idKey s r := by
  unfold idKey idOf getModel
  rw [h]

lemma insertSorted_sorted (s : CollState) (x : Nat) (l : List Nat)
    (hx : (idKey s x).isSome) (hl : ∀ y ∈ l, (idKey s y).isSome)
    (hsort : List.Sorted (keyLe s) l) :
    List.Sorted (keyLe s)
      (Collection.insertSorted (fun a b => numNeg (Collection.comparator s a b)) x l) := by
  induction l with
  | nil => simp [Collection.insertSorted, List.sorted_singleton]
  | cons y ys ih =>
      rw [List.sorted_cons] at hsort
      unfold Collection.insertSorted
      by_cases hlt : numNeg (Collection.comparator s y x) = true
      · rw [if_pos hlt, List.sorted_cons]
        refine ⟨?_, ih (fun z hz => hl z (List.mem_cons_of_mem y hz)) hsort.2⟩
        intro z hz
        have hz' := (insertSorted_perm _ x ys).mem_iff.mp hz
        rcases List.mem_cons.mp hz' with hzx | hzys
        · subst hzx
          exact le_of_lt
            ((comparator_lt_iff s y z (hl y (List.mem_cons_self y ys)) hx).mp hlt)
        · exact hsort.1 z hzys
      · rw [if_neg hlt, List.sorted_cons]
        have hxy : keyLe s x y := by
          have h2 : ¬ ((idKey s y).getD 0 < (idKey s x).getD 0) := fun hc =>
            hlt ((comparator_lt_iff s y x (hl y (List.mem_cons_self y ys)) hx).mpr hc)
          exact le_of_not_lt h2
        refine ⟨?_, List.sorted_cons.mpr hsort⟩
        intro z hz
        rcases List.mem_cons.mp hz with hzy | hzys
        · subst hzy
          exact hxy
        · exact le_trans hxy (hsort.1 z hzys)

lemma insertionSort_sorted (s : CollState) (l : List Nat)
    (hl : ∀ y ∈ l, (idKey s y).isSome) :
    List.Sorted (keyLe s)
      (Collection.insertionSort (fun a b => numNeg (Collection.comparator s a b)) l) := by
  induction l with
  | nil => simp [Collection.insertionSort, List.sorted_nil]
  | cons x xs ih =>
      unfold Collection.insertionSort
      refine insertSorted_sorted s x _ (hl x (List.mem_cons_self x xs)) ?_
        (ih fun y hy => hl y (List.mem_cons_of_mem x hy))
      intro y hy
      exact hl y (List.mem_cons_of_mem x ((insertionSort_perm _ xs).mem_iff.mp hy))

lemma sortColl_sorted (t : CollState)
    (h : memberIdsNumeric (Collection.sortColl t).1) :
    sortedByIds (Collection.sortColl t).1 := by
  have hl : ∀ r ∈ t.members, (idKey t r).isSome := by
    intro r hr
    have hm : r ∈ (Collection.sortColl t).1.members := by
      rw [sortColl_members]
      exact (insertionSort_perm _ _).mem_iff.mpr hr
    have := h r hm
    rwa [idKey_congr_heap t (Collection.sortColl t).1 (sortColl_heap t) r] at this
  unfold sortedByIds
  rw [sortColl_members]
  exact sorted_transport t _ _
    (fun r _ => idKey_congr_heap t (Collection.sortColl t).1 (sortColl_heap t) r)
    (insertionSort_sorted t t.members hl)

lemma spliceRemove_sublist (l : List Nat) (r : Nat) :
    (Collection.spliceRemove l r).Sublist l := by
  unfold Collection.spliceRemove
  rcases h : l.indexOf? r with _ | i
  · exact List.dropLast_sublist l
  · exact List.eraseIdx_sublist l i

lemma removeLoop_members_sublist (s : CollState) (l : List Nat) :
    (Collection.removeLoop s l).1.members.Sublist s.members := by
  induction l generalizing s with
  | nil => exact List.Sublist.refl _
  | cons r rest ih =>
      exact (ih { s with members := Collection.spliceRemove s.members r }).trans
        (spliceRemove_sublist s.members r)

lemma removeColl_sorted (s : CollState) (xs : List Nat)
    (h : sortedByIds s) : sortedByIds (Collection.removeColl s xs).1 := by
  have hsub : (Collection.removeColl s xs).1.members.Sublist s.members :=
    removeLoop_members_sublist s _
  have hpair : List.Sorted (keyLe s) (Collection.removeColl s xs).1.members :=
    h.sublist hsub
  exact sorted_transport s _ _
    (fun r _ => idKey_congr_heap s (Collection.removeColl s xs).1 (removeColl_heap s xs) r)
    hpair

lemma pres_transport (s s' : CollState)
    (hm : s'.members = s.members)
    (hk : ∀ r ∈ s.members, idKey s' r = idKey s r)
    (hs : memberIdsNumeric s → sortedByIds s)
    (h : memberIdsNumeric s') : sortedByIds s' := by
  have hnum : memberIdsNumeric s := by
    intro r hr
    have h2 := h r (by rw [hm]; exact hr)
    rwa [hk r hr] at h2
  unfold sortedByIds
  rw [hm]
  exact sorted_transport s s' s.members hk (hs hnum)

lemma modelSetAttributes_cases (s : CollState) (r : Nat) (na : Obj) :
    (r ∈ s.members ∧ (Collection.modelSetAttributes s r na).1 =
        (Collection.sortColl (updModel s r
          { getModel s r with attrs := (setAttributesGo (getModel s r).attrs na).1 })).1) ∨
    (r ∉ s.members ∧ (Collection.modelSetAttributes s r na).1 =
        updModel s r
          { getModel s r with attrs := (setAttributesGo (getModel s r).attrs na).1 }) := by
  by_cases hmem : r ∈ s.members
  · left
    exact ⟨hmem, by unfold Collection.modelSetAttributes; rw [if_pos hmem]⟩
  · right
    exact ⟨hmem, by unfold Collection.modelSetAttributes; rw [if_neg hmem]⟩

lemma dispatchAdd_sorted (s : CollState) (r : Nat) (st : String)
    (hs : memberIdsNumeric s → sortedByIds s)
    (h : memberIdsNumeric (Collection.dispatchAdd s r st).1) :
    sortedByIds (Collection.dispatchAdd s r st).1 := by
  unfold Collection.dispatchAdd at h ⊢
  by_cases h1 : isNewM s r = true
  · rw [if_pos h1] at h ⊢
    exact sortColl_sorted _ h
  · rw [if_neg h1] at h ⊢
    by_cases h2 : (s.members.any fun cm => strictEq (idOf s cm) (idOf s r)) = true
    · rw [if_pos h2] at h ⊢
      unfold Collection.handleDuplicate at h ⊢
      by_cases hr1 : (st == "replace") = true
      · rw [if_pos hr1] at h ⊢
        unfold Collection.replaceModel at h ⊢
        rcases hg : Collection.getById s (idOf s r) with _ | old <;> simp only [hg] at h ⊢
        · exact hs h
        · exact sortColl_sorted _ h
      · rw [if_neg hr1] at h ⊢
        by_cases hr2 : (st == "mergeNewIntoOld") = true
        · rw [if_pos hr2] at h ⊢
          unfold Collection.mergeNewIntoOld at h ⊢
          rcases hg : Collection.getById s (idOf s r) with _ | old <;> simp only [hg] at h ⊢
          · exact hs h
          · rcases modelSetAttributes_cases s old (getModel s r).attrs with
              ⟨hmem, heq⟩ | ⟨hmem, heq⟩
            · rw [heq] at h ⊢
              exact sortColl_sorted _ h
            · rw [heq] at h ⊢
              refine pres_transport s _ rfl ?_ hs h
              intro m hm
              unfold idKey idOf
              rw [getModel_updModel_ne s old m _ (fun e => hmem (e ▸ hm))]
        · rw [if_neg hr2] at h ⊢
          by_cases hr3 : (st == "mergeOldIntoNew") = true
          · rw [if_pos hr3] at h ⊢
            unfold Collection.mergeOldIntoNew at h ⊢
            rcases hg : Collection.getById s (idOf s r) with _ | old <;> simp only [hg] at h ⊢
            · exact hs h
            · exact sortColl_sorted _ h
          · rw [if_neg hr3] at h ⊢
            exact hs h
    · rw [if_neg h2] at h ⊢
      exact sortColl_sorted _ h

lemma sortColl_members_perm (t : CollState) :
    (Collection.sortColl t).1.members.Perm t.members := by
  rw [sortColl_members]
  exact insertionSort_perm _ _

lemma sortColl_facts (t : CollState) (s : CollState) (r : Nat)
    (hh : t.heap.length = s.heap.length)
    (hm : ∀ m ∈ t.members, m ∈ s.members ∨ m = r) :
    (Collection.sortColl t).1.heap.length = s.heap.length ∧
    ∀ m ∈ (Collection.sortColl t).1.members, m ∈ s.members ∨ m = r := by
  constructor
  · rw [sortColl_heap]
    exact hh
  · intro m hmem
    exact hm m ((sortColl_members_perm t).mem_iff.mp hmem)

lemma dispatchAdd_facts (s : CollState) (r : Nat) (st : String) :
    (Collection.dispatchAdd s r st).1.heap.length = s.heap.length ∧
    ∀ m ∈ (Collection.dispatchAdd s r st).1.members, m ∈ s.members ∨ m = r := by
  unfold Collection.dispatchAdd
  by_cases h1 : isNewM s r = true
  · rw [if_pos h1]
    refine sortColl_facts _ s r ?_ ?_
    · show (updModel s r { getModel s r with coll := true }).heap.length = s.heap.length
      simp [updModel]
    · intro m hm
      rcases List.mem_append.mp hm with h3 | h3
      · exact Or.inl h3
      · exact Or.inr (by simpa using h3)
  · rw [if_neg h1]
    by_cases h2 : (s.members.any fun cm => strictEq (idOf s cm) (idOf s r)) = true
    · rw [if_pos h2]
      unfold Collection.handleDuplicate
      by_cases hr1 : (st == "replace") = true
      · rw [if_pos hr1]
        unfold Collection.replaceModel
        rcases hg : Collection.getById s (idOf s r) with _ | old <;> simp only [hg]
        · exact ⟨by trivial, fun m hm => Or.inl hm⟩
        · refine sortColl_facts _ s r ?_ ?_
          · simp [updModel]
          · intro m hm
            rcases List.mem_append.mp hm with h3 | h3
            · exact Or.inl ((spliceRemove_sublist s.members old).subset h3)
            · exact Or.inr (by simpa using h3)
      · rw [if_neg hr1]
        by_cases hr2 : (st == "mergeNewIntoOld") = true
        · rw [if_pos hr2]
          unfold Collection.mergeNewIntoOld
          rcases hg : Collection.getById s (idOf s r) with _ | old <;> simp only [hg]
          · exact ⟨by trivial, fun m hm => Or.inl hm⟩
          · rcases modelSetAttributes_cases s old (getModel s r).attrs with
              ⟨hmem2, heq⟩ | ⟨hmem2, heq⟩
            · rw [heq]
              refine sortColl_facts _ s r ?_ ?_
              · simp [updModel]
              · intro m hm
                exact Or.inl hm
            · rw [heq]
              exact ⟨by simp [updModel], fun m hm => Or.inl hm⟩
        · rw [if_neg hr2]
          by_cases hr3 : (st == "mergeOldIntoNew") = true
          · rw [if_pos hr3]
            unfold Collection.mergeOldIntoNew
            rcases hg : Collection.getById s (idOf s r) with _ | old <;> simp only [hg]
            · exact ⟨by trivial, fun m hm => Or.inl hm⟩
            · rcases modelSetAttributes_cases (updModel s r { getModel s r with coll := true })
                r (getModel (updModel s r { getModel s r with coll := true }) old).attrs with
                ⟨hmem2, heq⟩ | ⟨hmem2, heq⟩ <;> rw [heq] <;> refine sortColl_facts _ s r ?_ ?_
              · simp [updModel, sortColl_heap]
              · intro m hm
                rcases List.mem_append.mp hm with h3 | h3
                · have h4 := (spliceRemove_sublist _ _).subset h3
                  have h5 := (sortColl_members_perm _).mem_iff.mp h4
                  exact Or.inl h5
                · exact Or.inr (by simpa using h3)
              · simp [updModel]
              · intro m hm
                rcases List.mem_append.mp hm with h3 | h3
                · have h4 := (spliceRemove_sublist _ _).subset h3
                  exact Or.inl h4
                · exact Or.inr (by simpa using h3)
          · rw [if_neg hr3]
            exact ⟨rfl, fun m hm => Or.inl hm⟩
    · rw [if_neg h2]
      refine sortColl_facts _ s r ?_ ?_
      · show (updModel s r { getModel s r with coll := true }).heap.length = s.heap.length
        simp [updModel]
      · intro m hm
        rcases List.mem_append.mp hm with h3 | h3
        · exact Or.inl h3
        · exact Or.inr (by simpa using h3)

lemma vivify_ok (s : CollState) (it : Collection.AddItem) (s1 : CollState) (r : Nat)
    (h : Collection.vivify s it = .ok (s1, r)) :
    s1.members = s.members ∧ s.heap.length ≤ s1.heap.length ∧ r < s1.heap.length ∧
      ∀ m, m < s.heap.length → getModel s1 m = getModel s m := by
  cases it with
  | modelRef rr =>
      simp only [Collection.vivify] at h
      by_cases hc : (getModel s rr).chain.contains s.modelCls = true
      · rw [if_pos hc] at h
        injection h with h
        rw [Prod.mk.injEq] at h
        obtain ⟨h1, h2⟩ := h
        subst h1
        subst h2
        exact ⟨rfl, le_refl _, lt_length_of_chain s rr s.modelCls hc, fun m _ => rfl⟩
      · rw [if_neg hc] at h
        exact Except.noConfusion h
  | plain attrs =>
      simp only [Collection.vivify] at h
      rcases hk : mkModel attrs s.newChain with e | m
      · simp only [hk] at h
        exact Except.noConfusion h
      · simp only [hk] at h
        injection h with h
        rw [Prod.mk.injEq] at h
        obtain ⟨h1, h2⟩ := h
        subst h1
        subst h2
        refine ⟨rfl, by simp, by simp, ?_⟩
        intro m2 hm2
        unfold getModel
        rw [List.getD_eq_getElem?_getD, List.getElem?_append_left hm2,
          ← List.getD_eq_getElem?_getD]
  | nonObject v => exact Except.noConfusion h

lemma addGo_sorted (items : List Collection.AddItem) (s : CollState) (st : String)
    (hwf : wfRefs s) (hs : memberIdsNumeric s → sortedByIds s)
    (h : memberIdsNumeric (Collection.addGo s items st).state) :
    sortedByIds (Collection.addGo s items st).state := by
  induction items generalizing s with
  | nil => exact hs h
  | cons item rest ih =>
      rcases hv : Collection.vivify s item with e | p
      · have hst : (Collection.addGo s (item :: rest) st).state = s := by
          unfold Collection.addGo
          rw [hv]
        rw [hst] at h ⊢
        exact hs h
      · obtain ⟨s1, r⟩ := p
        obtain ⟨hmem, hlen, hrlt, hget⟩ := vivify_ok s item s1 r hv
        have hst : (Collection.addGo s (item :: rest) st).state =
            (Collection.addGo (Collection.dispatchAdd s1 r st).1 rest st).state := by
          simp only [Collection.addGo]
          rw [hv]
        have hwf1 : wfRefs s1 := by
          intro m hm2
          rw [hmem] at hm2
          exact lt_of_lt_of_le (hwf m hm2) hlen
        have hk : ∀ m ∈ s.members, idKey s1 m = idKey s m := by
          intro m hm2
          unfold idKey idOf
          rw [hget m (hwf m hm2)]
        have hs1 : memberIdsNumeric s1 → sortedByIds s1 :=
          fun hn => pres_transport s s1 hmem hk hs hn
        have hwf2 : wfRefs (Collection.dispatchAdd s1 r st).1 := by
          intro m hm2
          rcases (dispatchAdd_facts s1 r st).2 m hm2 with h3 | h3
          · rw [(dispatchAdd_facts s1 r st).1]
            exact hwf1 m h3
          · rw [(dispatchAdd_facts s1 r st).1, h3]
            exact hrlt
        have hs2 : memberIdsNumeric (Collection.dispatchAdd s1 r st).1 →
            sortedByIds (Collection.dispatchAdd s1 r st).1 :=
          fun hn => dispatchAdd_sorted s1 r st hs1 hn
        rw [hst] at h ⊢
        exact ih _ hwf2 hs2 h

lemma add_state_eq (s : CollState) (items : List Collection.AddItem) (st : String) :
    (Collection.add s items st).state = s ∨
    (Collection.add s items st).state = (Collection.addGo s items st).state := by
  unfold Collection.add
  by_cases hbad : (items.any fun it => Collection.badAddItem s it) = true
  · rw [if_pos hbad]
    exact Or.inl rfl
  · rw [if_neg hbad]
    refine Or.inr ?_
    rcases he : (Collection.addGo s items st).err with _ | e <;> simp only [he]

/-- C4: corrected form. The default comparator computes `a.id - b.id` under
JavaScript numeric coercion - a three-way numeric compare whose result is
negative exactly when the left id's numeric key is smaller and positive
exactly when the right one's is, never a lexical string compare.
Consequently the private sort leaves the member sequence ascending by numeric
id whenever all resulting member ids are numeric, `remove` preserves that
sortedness, and `add` maintains it from any state with well-formed member
references that already satisfied the invariant. -/
theorem claim4_numeric_order
    (s t u w : CollState) (a b : Nat) (p q : ℚ)
    (ha : idKey s a = some p) (hb : idKey s b = some q)
    (ht : memberIdsNumeric (Collection.sortColl t).1)
    (xs : List Nat) (hu : sortedByIds u)
    (items : List Collection.AddItem) (st : String)
    (hwf : wfRefs w) (hw : memberIdsNumeric w → sortedByIds w)
    (hadd : memberIdsNumeric (Collection.add w items st).state) :
    (numNeg (Collection.comparator s a b) = decide (p < q) ∧
      numPos (Collection.comparator s a b) = decide (q < p)) ∧
    sortedByIds (Collection.sortColl t).1 ∧
    sortedByIds (Collection.removeColl u xs).1 ∧
    sortedByIds (Collection.add w items st).state := by
  refine ⟨comparator_signs s a b p q ha hb, sortColl_sorted t ht,
    removeColl_sorted u xs hu, ?_⟩
  rcases add_state_eq w items st with he | he
  · rw [he] at hadd ⊢
    exact hw hadd
  · rw [he] at hadd ⊢
    exact addGo_sorted items w st hwf hw hadd

/-- Witness: in a two-member collection with numeric ids 10 and 9 the
comparator is positive on the (10, 9) pair and negative reversed, the sort
puts the id-9 member first, removal keeps the remainder sorted, and adding
records with ids 2 then 1 to the empty collection yields an ascending member
sequence. -/
theorem claim4_witness :
    (numNeg (Collection.comparator c4SortState 0 1) = decide ((10 : ℚ) < 9) ∧
      numPos (Collection.comparator c4SortState 0 1) = decide ((9 : ℚ) < 10)) ∧
    sortedByIds (Collection.sortColl c4SortState).1 ∧
    sortedByIds (Collection.removeColl c4Sorted [0]).1 ∧
    sortedByIds (Collection.add emptyColl c4Items "").state :=
  claim4_numeric_order c4SortState c4SortState c4Sorted emptyColl 0 1 10 9
    (by decide) (by decide)
    (by unfold memberIdsNumeric; decide)
    [0] (sortColl_sorted c4SortState (by unfold memberIdsNumeric; decide))
    c4Items "" (fun r hr => absurd hr (List.not_mem_nil r))
    (fun _ => List.sorted_nil)
    (by unfold memberIdsNumeric; decide)

end Vertebrate
